import Mathlib

/-!
Verification development for the on-device vehicle / license-plate
preprocessing engine (ImageProcessingService.ts, VehicleDetectionService.ts,
CloudUploadService.ts).

Shallow embedding conventions:
* JS `number` is modelled as `ℚ` (exact rational arithmetic; floating-point
  rounding is idealised away, and decimal literals such as `0.065` are read as
  the rationals they denote, `13/200`).
* Division by zero: JS produces `NaN` (for `0/0`), and every comparison
  against `NaN` is false.  Lean's `ℚ` yields `0` for division by zero.  At
  every decision point of this code the divided value is compared against a
  strictly positive threshold, and in the `0/0` situations that actually arise
  (a max of `0` forces every numerator to be `0` as well) both conventions
  make the comparison false, so the embedded decisions agree with the JS ones.
* `tf.conv2d(..., 'same')` is cross-correlation with zero padding; it is
  embedded by explicit 9-point (resp. 5-point) stencils over a zero-padded
  lookup `grayAt`.
* `x > 0.15` on the normalised gradient magnitude `sqrt(magSq)/sqrt(maxSq)`
  is embedded in the equivalent square form `400 * magSq > 9 * maxSq`
  (both sides of the original comparison are nonnegative, so squaring is
  exact, and the `max = 0` case yields `false` in both readings).  Likewise
  the circular-window test `sqrt(dx²+dy²) > halfSize` is embedded as
  `dx² + dy² > halfSize²`.
* A JS loop `for (v = start; v < bound; v += step)` with a positive rational
  step visits exactly `start + k*step` for `k < ⌈(bound - start)/step⌉₊`;
  `loopPositions` below produces that list (and the empty list for a
  nonpositive step, where the JS loop would not terminate or not run).
-/

namespace LPD

/-- RGB pixel with rational channel values (decoded JPEG data is 0..255). -/
structure Pixel where
  r : ℚ
  g : ℚ
  b : ℚ

/-- Decoded 3-channel pixel buffer with explicit dimensions
(the `tf.Tensor3D` input of the detectors). -/
structure Image where
  width : ℕ
  height : ℕ
  pix : ℕ → ℕ → Pixel

/-- Bounding box `{x, y, width, height}` (src/types/detection.ts). -/
structure BoundingBox where
  x : ℚ
  y : ℚ
  width : ℚ
  height : ℚ
  deriving DecidableEq

/-- Vehicle region type tag; the detector only ever emits `front` or `rear`. -/
inductive VehicleType where
  | front
  | rear
  | side
  deriving DecidableEq

/-- VehicleRegion record (src/types/detection.ts). -/
structure VehicleRegion where
  type : VehicleType
  bbox : BoundingBox
  confidence : ℚ
  deriving DecidableEq

/-- LicensePlateRegion record (src/types/detection.ts). -/
structure LicensePlateRegion where
  bbox : BoundingBox
  confidence : ℚ
  deriving DecidableEq

/-- LogoRegion record (src/types/detection.ts). -/
structure LogoRegion where
  bbox : BoundingBox
  confidence : ℚ
  deriving DecidableEq

/-- RGB triple of the dominant colour (integers after `Math.round`). -/
structure Rgb where
  r : ℤ
  g : ℤ
  b : ℤ
  deriving DecidableEq

/-- ColorInfo record (src/types/detection.ts). -/
structure ColorInfo where
  dominant : String
  name : String
  confidence : ℚ
  rgb : Rgb
  deriving DecidableEq

/-- Grayscale reduction `imageTensor.mean(2)` with zero padding outside the
image (the padding realises `conv2d(..., 'same')`). -/
def grayAt (img : Image) (x y : ℤ) : ℚ :=
  if 0 ≤ x ∧ x < (img.width : ℤ) ∧ 0 ≤ y ∧ y < (img.height : ℤ) then
    ((img.pix x.toNat y.toNat).r + (img.pix x.toNat y.toNat).g +
      (img.pix x.toNat y.toNat).b) / 3
  else 0

/-- Horizontal Sobel response: cross-correlation of the grayscale field with
`[[-1,0,1],[-2,0,2],[-1,0,1]]` at pixel `(x, y)` (zero padded). -/
def sobelXAt (img : Image) (x y : ℤ) : ℚ :=
  -(grayAt img (x - 1) (y - 1)) + grayAt img (x + 1) (y - 1)
    - 2 * grayAt img (x - 1) y + 2 * grayAt img (x + 1) y
    - grayAt img (x - 1) (y + 1) + grayAt img (x + 1) (y + 1)

/-- Vertical Sobel response: cross-correlation with
`[[-1,-2,-1],[0,0,0],[1,2,1]]` at pixel `(x, y)` (zero padded). -/
def sobelYAt (img : Image) (x y : ℤ) : ℚ :=
  -(grayAt img (x - 1) (y - 1)) - 2 * grayAt img x (y - 1)
    - grayAt img (x + 1) (y - 1)
    + grayAt img (x - 1) (y + 1) + 2 * grayAt img x (y + 1)
    + grayAt img (x + 1) (y + 1)

/-- Squared gradient magnitude `gx² + gy²`; the source stores
`sqrt(gx² + gy²)`, and every later use of that value is embedded through its
square (see the header comment). -/
def magSq (img : Image) (x y : ℤ) : ℚ :=
  sobelXAt img x y ^ 2 + sobelYAt img x y ^ 2

/-- Maximum of a per-pixel field over the whole image, folded row by row
(`tensor.max()`; the row-wise association keeps evaluation shallow and is
irrelevant to the value). -/
def maxOf2D (img : Image) (f : ℤ → ℤ → ℚ) : ℚ :=
  (List.range img.height).foldl
    (fun m y =>
      (List.range img.width).foldl (fun m2 x => max m2 (f ((x : ℕ) : ℤ) ((y : ℕ) : ℤ))) m) 0

/-- Maximum of the squared gradient magnitude over the image
(the square of `magnitude.max()`). -/
def maxMagSq (img : Image) : ℚ :=
  maxOf2D img (fun x y => magSq img x y)

/-- Thresholded edge map `normalized.greater(0.15)` of the vehicle detector:
`sqrt(magSq)/sqrt(maxSq) > 0.15` in the exact square form
`400 * magSq > 9 * maxSq` (false when `maxSq = 0`, matching the JS `NaN`
comparison produced by `0/0`). -/
def edgePass (img : Image) (x y : ℤ) : Bool :=
  decide (9 * maxMagSq img < 400 * magSq img x y)

/-- The materialised boolean edge array `await threshold.data()`, row-major. -/
def edgeData (img : Image) : List Bool :=
  (List.range (img.width * img.height)).map
    (fun i => edgePass img ((i % img.width : ℕ) : ℤ) ((i / img.width : ℕ) : ℤ))

/-- Grid constant of the vehicle detector. -/
def gridSize : ℕ := 8

/-- Grid cell width `Math.floor(imageWidth / gridSize)`. -/
def cellW (img : Image) : ℕ := img.width / gridSize

/-- Grid cell height `Math.floor(imageHeight / gridSize)`. -/
def cellH (img : Image) : ℕ := img.height / gridSize

/-- Row-major scan positions of the vehicle detector:
`gy` outer, `gx` inner, each ranging over `[0, gridSize - 2)` as written in
the source loops (`for (let gy = 0; gy < gridSize - 2; gy++)`). -/
def vehiclePositions : List (ℕ × ℕ) :=
  (List.range (gridSize - 2)).flatMap
    (fun gy => (List.range (gridSize - 2)).map (fun gx => (gx, gy)))

/-- Number of above-threshold pixels in the 3×3-cell window whose top-left
grid position is `(gx, gy)`, read from the flat array at
`idx = y * imageWidth + x`; the ranges carry the source's
`y < imageHeight && x < imageWidth` guards. -/
def windowEdgeCount (img : Image) (ed : List Bool) (gx gy : ℕ) : ℕ :=
  let startX := gx * cellW img
  let startY := gy * cellH img
  let w := min (3 * cellW img) (img.width - startX)
  let h := min (3 * cellH img) (img.height - startY)
  ((List.range h).flatMap (fun dy => (List.range w).map (fun dx => (dx, dy)))).countP
    (fun d => ed.getD ((startY + d.2) * img.width + (startX + d.1)) false)

/-- Edge density of a window: pixel count over `regionWidth * regionHeight`
(`0` when the denominator is `0`, matching the JS `NaN` analysis). -/
def windowDensity (img : Image) (gx gy : ℕ) : ℚ :=
  (windowEdgeCount img (edgeData img) gx gy : ℚ) /
    (((3 * cellW img) * (3 * cellH img) : ℕ) : ℚ)

/-- Bounding box of the 3×3-cell window at grid position `(gx, gy)`. -/
def vehicleWindowBox (img : Image) (p : ℕ × ℕ) : BoundingBox :=
  ⟨((p.1 * cellW img : ℕ) : ℚ), ((p.2 * cellH img : ℕ) : ℚ),
    ((3 * cellW img : ℕ) : ℚ), ((3 * cellH img : ℕ) : ℚ)⟩

/-- Greedy single-pass maximum tracking (`if (density > maxDensity) ...`)
over a list of scan positions, starting from density `0` and an all-zero
best region. -/
def bestScan (d : ℕ × ℕ → ℚ) (w : ℕ × ℕ → BoundingBox) (l : List (ℕ × ℕ)) :
    ℚ × BoundingBox :=
  l.foldl (fun acc p => if acc.1 < d p then (d p, w p) else acc) (0, ⟨0, 0, 0, 0⟩)

/-- Vehicle detector scan state after the grid loop:
`(maxDensity, bestRegion)`. -/
def vehicleScan (img : Image) : ℚ × BoundingBox :=
  bestScan (fun p => windowDensity img p.1 p.2) (vehicleWindowBox img) vehiclePositions

/-- ImageProcessingService.detectVehicleRegion: emit the densest window when
`maxDensity > 0.05`, typed `rear` when the window's vertical centre lies below
mid-height, with `confidence = min(maxDensity * 5, 0.95)`. -/
def detectVehicleRegion (img : Image) : Option VehicleRegion :=
  let s := vehicleScan img
  if 1 / 20 < s.1 then
    some
      { type :=
          if (img.height : ℚ) * (1 / 2) < s.2.y + s.2.height / 2 then VehicleType.rear
          else VehicleType.front
        bbox := s.2
        confidence := min (s.1 * 5) (19 / 20) }
  else none

/-- Modelled from the claim text (spec §4.2): the identical scan but with
`gx, gy ∈ [0, gridSize - 3)`, i.e. positions `{0,...,4}²`, as the claim (and
the spec sentence it quotes) asserts the source evaluates.  Kept solely to
compare against `detectVehicleRegion`, whose loops use `gridSize - 2`. -/
def claimedVehiclePositions : List (ℕ × ℕ) :=
  (List.range (gridSize - 3)).flatMap
    (fun gy => (List.range (gridSize - 3)).map (fun gx => (gx, gy)))

/-- Modelled from the claim text: `detectVehicleRegion` restricted to the
claimed position set `[0, gridSize - 3)²`. -/
def claimedDetectVehicleRegion (img : Image) : Option VehicleRegion :=
  let s := bestScan (fun p => windowDensity img p.1 p.2) (vehicleWindowBox img)
    claimedVehiclePositions
  if 1 / 20 < s.1 then
    some
      { type :=
          if (img.height : ℚ) * (1 / 2) < s.2.y + s.2.height / 2 then VehicleType.rear
          else VehicleType.front
        bbox := s.2
        confidence := min (s.1 * 5) (19 / 20) }
  else none

/-- Absolute horizontal Sobel response
(`tf.abs(tf.conv2d(expanded, kernelX, 1, 'same'))`) — the only edge field the
plate detector computes. -/
def absGradX (img : Image) (x y : ℤ) : ℚ := |sobelXAt img x y|

/-- Maximum of the plate detector's edge field (`edges.max()`). -/
def plateMaxEdge (img : Image) : ℚ :=
  maxOf2D img (fun x y => absGradX img x y)

/-- The materialised plate edge array `await edges.data()`, row-major. -/
def plateEdgeData (img : Image) : List ℚ :=
  (List.range (img.width * img.height)).map
    (fun i => absGradX img ((i % img.width : ℕ) : ℤ) ((i / img.width : ℕ) : ℤ))

/-- Flat-array read `edgeData[idx] || 0` of the plate detector: the index is
row-major into the `width × height` field, out-of-range reads give `0`. -/
def edgeAtFlat (img : Image) (i : ℤ) : ℚ :=
  if 0 ≤ i then (plateEdgeData img).getD i.toNat 0 else 0

/-- Per-pixel value the plate detector scores:
`edgeVal = (edgeData[idx] || 0) / maxEdge`. -/
def plateNormAt (img : Image) (i : ℤ) : ℚ := edgeAtFlat img i / plateMaxEdge img

/-- Visit list of the JS loop `for (v = start; v < bound; v += step)` for a
positive step (empty for a nonpositive step). -/
def loopPositions (start bound step : ℚ) : List ℚ :=
  if 0 < step then
    (List.range (Nat.ceil ((bound - start) / step))).map
      (fun (k : ℕ) => start + (k : ℚ) * step)
  else []

/-- Search bounds of the plate detector: `(startX, startY, endX, endY)`. -/
structure SearchBounds where
  startX : ℚ
  startY : ℚ
  endX : ℚ
  endY : ℚ

/-- Plate detector search bounds: the vehicle bbox with its top offset by 30%
of its height when a hint is present, otherwise the lower 60% of the image
(`searchStartY = Math.floor(imageHeight * 0.4)`). -/
def plateSearchBounds (img : Image) : Option VehicleRegion → SearchBounds
  | none => ⟨0, ((img.height * 2 / 5 : ℕ) : ℚ), (img.width : ℚ), (img.height : ℚ)⟩
  | some v =>
      ⟨v.bbox.x, v.bbox.y + v.bbox.height * (3 / 10), v.bbox.x + v.bbox.width,
        v.bbox.y + v.bbox.height⟩

/-- The two candidate plate window sizes `(w, h)`, both proportional to the
image width (`0.25/0.065` and `0.15/0.075`). -/
def plateSizes (img : Image) : List (ℚ × ℚ) :=
  [((img.width : ℚ) / 4, (img.width : ℚ) * 13 / 200),
    ((img.width : ℚ) * 3 / 20, (img.width : ℚ) * 3 / 40)]

/-- Plate candidate: bbox plus acceptance score. -/
structure PlateCandidate where
  bbox : BoundingBox
  score : ℚ
  deriving DecidableEq

/-- The normalised edge values sampled by one plate window: integer offsets
`dy < size.h`, `dx < size.w`, flat index
`Math.floor(y + dy) * imageWidth + Math.floor(x + dx)`. -/
def plateWindowVals (img : Image) (size : ℚ × ℚ) (x y : ℚ) : List ℚ :=
  (List.range (Nat.ceil size.2)).flatMap (fun (dy : ℕ) =>
    (List.range (Nat.ceil size.1)).map (fun (dx : ℕ) =>
      plateNormAt img
        (Int.floor (y + ((dy : ℕ) : ℚ)) * (img.width : ℤ) + Int.floor (x + ((dx : ℕ) : ℚ)))))

/-- Candidates produced by one window size: slide with
`stepX = 0.3 * w`, `stepY = 0.5 * h`, accept when
`edgeDensity > 0.15 ∧ horizontalRatio > 0.1`, score
`0.6 * edgeDensity + 0.4 * horizontalRatio`. -/
def plateCandidatesFor (img : Image) (sb : SearchBounds) (size : ℚ × ℚ) :
    List PlateCandidate :=
  (loopPositions sb.startY (sb.endY - size.2) (size.2 * (1 / 2))).flatMap (fun y =>
    (loopPositions sb.startX (sb.endX - size.1) (size.1 * (3 / 10))).filterMap (fun x =>
      let vals := plateWindowVals img size x y
      let area := size.1 * size.2
      let density := vals.sum / area
      let ratio := ((vals.countP (fun v => decide ((3 : ℚ) / 10 < v))) : ℚ) / area
      if 3 / 20 < density ∧ 1 / 10 < ratio then
        some ⟨⟨((Int.floor x : ℤ) : ℚ), ((Int.floor y : ℤ) : ℚ),
          ((Int.floor size.1 : ℤ) : ℚ), ((Int.floor size.2 : ℤ) : ℚ)⟩,
          density * (3 / 5) + ratio * (2 / 5)⟩
      else none))

/-- All accepted plate candidates, outer loop over the two sizes. -/
def plateCandidates (img : Image) (hint : Option VehicleRegion) : List PlateCandidate :=
  (plateSizes img).flatMap (fun s => plateCandidatesFor img (plateSearchBounds img hint) s)

/-- Stable insertion used to model the JS stable
`candidates.sort((a, b) => b.score - a.score)`: the new (later) candidate goes
after every already-placed candidate of greater-or-equal score. -/
def insertByScoreDesc (c : PlateCandidate) : List PlateCandidate → List PlateCandidate
  | [] => [c]
  | d :: t => if d.score < c.score then c :: d :: t else d :: insertByScoreDesc c t

/-- Stable descending sort by score. -/
def sortByScoreDesc (l : List PlateCandidate) : List PlateCandidate :=
  l.foldl (fun acc c => insertByScoreDesc c acc) []

/-- ImageProcessingService.detectLicensePlateRegion: best accepted candidate
with `confidence = min(score * 2, 0.9)`, `null` when no candidate passes. -/
def detectLicensePlateRegion (img : Image) (hint : Option VehicleRegion) :
    Option LicensePlateRegion :=
  match sortByScoreDesc (plateCandidates img hint) with
  | [] => none
  | best :: _ => some ⟨best.bbox, min (best.score * 2) (9 / 10)⟩

/-- Laplacian response: cross-correlation with `[[0,1,0],[1,-4,1],[0,1,0]]`
(zero padded). -/
def lapAt (img : Image) (x y : ℤ) : ℚ :=
  grayAt img x (y - 1) + grayAt img (x - 1) y - 4 * grayAt img x y +
    grayAt img (x + 1) y + grayAt img x (y + 1)

/-- Absolute Laplacian response (`tf.abs(...)`), the logo detector's field. -/
def lapAbsAt (img : Image) (x y : ℤ) : ℚ := |lapAt img x y|

/-- Maximum of the absolute Laplacian response (`response.max()`). -/
def maxLapAbs (img : Image) : ℚ :=
  maxOf2D img (fun x y => lapAbsAt img x y)

/-- The materialised Laplacian array `await response.data()`, row-major. -/
def responseData (img : Image) : List ℚ :=
  (List.range (img.width * img.height)).map
    (fun i => lapAbsAt img ((i % img.width : ℕ) : ℤ) ((i / img.width : ℕ) : ℤ))

/-- Normalised Laplacian value read by the logo detector at an in-bounds
pixel: `(responseData[idx] || 0) / maxResponse` with `idx = py * width + px`. -/
def logoNormAt (img : Image) (x y : ℤ) : ℚ :=
  (responseData img).getD (y * (img.width : ℤ) + x).toNat 0 / maxLapAbs img

/-- Logo search description: centre and radius. -/
structure LogoSearch where
  cx : ℚ
  cy : ℚ
  radius : ℚ

/-- Logo search area: centred on the vehicle bbox (20% down, radius 30% of
its width) when hinted, else image centre at 30% height, radius 30% of the
image width. -/
def logoSearch (img : Image) : Option VehicleRegion → LogoSearch
  | none => ⟨(img.width : ℚ) / 2, (img.height : ℚ) * (3 / 10), (img.width : ℚ) * (3 / 10)⟩
  | some v =>
      ⟨v.bbox.x + v.bbox.width / 2, v.bbox.y + v.bbox.height * (1 / 5),
        v.bbox.width * (3 / 10)⟩

/-- The three candidate logo diameters (6%, 8%, 10% of the image width). -/
def logoSizes (img : Image) : List ℚ :=
  [(img.width : ℚ) * (3 / 50), (img.width : ℚ) * (2 / 25), (img.width : ℚ) / 10]

/-- Circle offsets of one logo window: integer-stepped `dy, dx` from
`-halfSize`, keeping offsets with `dx² + dy² ≤ halfSize²` (the square form of
the source's `sqrt(dx*dx + dy*dy) > halfSize → continue`). -/
def circleOffsets (halfSize : ℚ) : List (ℚ × ℚ) :=
  (loopPositions (-halfSize) halfSize 1).flatMap (fun dy =>
    (loopPositions (-halfSize) halfSize 1).filterMap (fun dx =>
      if dx * dx + dy * dy ≤ halfSize * halfSize then some (dx, dy) else none))

/-- Normalised Laplacian samples of one logo window (bounds-checked reads). -/
def logoSamples (img : Image) (halfSize x y : ℚ) : List ℚ :=
  (circleOffsets halfSize).filterMap (fun d =>
    let px := Int.floor (x + d.1)
    let py := Int.floor (y + d.2)
    if 0 ≤ px ∧ 0 ≤ py ∧ px < (img.width : ℤ) ∧ py < (img.height : ℤ) then
      some (logoNormAt img px py)
    else none)

/-- Logo candidate: bbox plus blob score. -/
structure LogoCandidate where
  bbox : BoundingBox
  score : ℚ
  deriving DecidableEq

/-- Window positions of the logo scan for one size: step `0.5 * size` over
the square around the search centre, skipping positions whose bounding square
would exit the image. -/
def logoWindowPositions (img : Image) (s : LogoSearch) (size : ℚ) : List (ℚ × ℚ) :=
  (loopPositions (s.cy - s.radius) (s.cy + s.radius) (size * (1 / 2))).flatMap (fun y =>
    (loopPositions (s.cx - s.radius) (s.cx + s.radius) (size * (1 / 2))).filterMap (fun x =>
      if x < size / 2 ∨ y < size / 2 ∨ (img.width : ℚ) - size / 2 < x ∨
          (img.height : ℚ) - size / 2 < y then none
      else some (x, y)))

/-- Bounding box of a logo window: the square bounding the sampled circle. -/
def logoBox (size x y : ℚ) : BoundingBox :=
  ⟨((Int.floor (x - size / 2) : ℤ) : ℚ), ((Int.floor (y - size / 2) : ℤ) : ℚ),
    ((Int.floor size : ℤ) : ℚ), ((Int.floor size : ℤ) : ℚ)⟩

/-- Single best-scoring logo window across all sizes and positions
(`if (!bestLogo || blobScore > bestLogo.score)`); windows whose circle
samples no pixel are skipped. -/
def logoScan (img : Image) (hint : Option VehicleRegion) : Option LogoCandidate :=
  (logoSizes img).foldl (fun best size =>
    (logoWindowPositions img (logoSearch img hint) size).foldl (fun best p =>
      let smp := logoSamples img (size / 2) p.1 p.2
      if smp.length = 0 then best
      else
        let score := smp.sum / (smp.length : ℚ)
        match best with
        | none => some ⟨logoBox size p.1 p.2, score⟩
        | some b => if b.score < score then some ⟨logoBox size p.1 p.2, score⟩ else best)
      best) none

/-- ImageProcessingService.detectLogoRegion: accept the best window when its
score exceeds `0.1`, `confidence = min(score * 3, 0.85)`. -/
def detectLogoRegion (img : Image) (hint : Option VehicleRegion) : Option LogoRegion :=
  match logoScan img hint with
  | some b => if 1 / 10 < b.score then some ⟨b.bbox, min (b.score * 3) (17 / 20)⟩ else none
  | none => none

/-- Row-major pixel values of a crop, already divided by 255 (the detector
normalises with `.div(255)` before or after slicing — identical in `ℚ`). -/
def cropVals (img : Image) (x0 y0 cw ch : ℕ) : List (ℚ × ℚ × ℚ) :=
  (List.range ch).flatMap (fun dy =>
    (List.range cw).map (fun dx =>
      ((img.pix (x0 + dx) (y0 + dy)).r / 255, (img.pix (x0 + dx) (y0 + dy)).g / 255,
        (img.pix (x0 + dx) (y0 + dy)).b / 255)))

/-- Crop rectangle `(x0, y0, cw, ch)` sampled by the colour classifier: the
clamped vehicle bbox when hinted (`slice([max(0,y), max(0,x)],
[min(h, height-y), min(w, width-x)])`), else the fixed central crop.  Tensor
slicing requires integer begin/sizes; the floor is exact for the integer
boxes this codebase passes. -/
def colorCrop (img : Image) : Option VehicleRegion → ℕ × ℕ × ℕ × ℕ
  | none =>
      (img.width / 5, img.height * 3 / 10, img.width * 3 / 5, img.height * 2 / 5)
  | some v =>
      ((max 0 (Int.floor v.bbox.x)).toNat, (max 0 (Int.floor v.bbox.y)).toNat,
        (min (Int.floor v.bbox.width) ((img.width : ℤ) - Int.floor v.bbox.x)).toNat,
        (min (Int.floor v.bbox.height) ((img.height : ℤ) - Int.floor v.bbox.y)).toNat)

/-- The pixel values the colour classifier samples. -/
def sampledVals (img : Image) (hint : Option VehicleRegion) : List (ℚ × ℚ × ℚ) :=
  let c := colorCrop img hint
  cropVals img c.1 c.2.1 c.2.2.1 c.2.2.2

/-- The denominator `pixelCount = regionWidth * regionHeight` of the
confidence: the un-floored `Math.min(w, width - x) * Math.min(h, height - y)`
when hinted, else `cropWidth * cropHeight`. -/
def colorPixelCountDenom (img : Image) : Option VehicleRegion → ℚ
  | none => (((img.width * 3 / 5) * (img.height * 2 / 5) : ℕ) : ℚ)
  | some v =>
      min v.bbox.width ((img.width : ℚ) - v.bbox.x) *
        min v.bbox.height ((img.height : ℚ) - v.bbox.y)

/-- Histogram bucket: pixel count and running channel sums. -/
structure HistEntry where
  count : ℕ
  r : ℤ
  g : ℤ
  b : ℤ
  deriving DecidableEq

/-- Quantised histogram key `(floor(r/32)*32, floor(g/32)*32, floor(b/32)*32)`. -/
def quantKey (r g b : ℤ) : ℤ × ℤ × ℤ :=
  ((r.fdiv 32) * 32, (g.fdiv 32) * 32, (b.fdiv 32) * 32)

/-- Insert one pixel into the insertion-ordered histogram (JS object keys
preserve insertion order). -/
def histInsert (key : ℤ × ℤ × ℤ) (r g b : ℤ) :
    List ((ℤ × ℤ × ℤ) × HistEntry) → List ((ℤ × ℤ × ℤ) × HistEntry)
  | [] => [(key, ⟨1, r, g, b⟩)]
  | e :: t =>
      if e.1 = key then (key, ⟨e.2.count + 1, e.2.r + r, e.2.g + g, e.2.b + b⟩) :: t
      else e :: histInsert key r g b t

/-- Colour histogram of a sampled value list; each channel is recovered with
`Math.round(value * 255)` (`round` is `⌊q + 1/2⌋`, JS's half-up rounding). -/
def buildHistogram (vals : List (ℚ × ℚ × ℚ)) : List ((ℤ × ℤ × ℤ) × HistEntry) :=
  vals.foldl (fun h v =>
    let r := round (v.1 * 255)
    let g := round (v.2.1 * 255)
    let b := round (v.2.2 * 255)
    histInsert (quantKey r g b) r g b h) []

/-- Accumulator of the dominant-bucket search. -/
structure DominantAcc where
  r : ℤ
  g : ℤ
  b : ℤ
  count : ℕ
  deriving DecidableEq

/-- Dominant bucket: highest count wins (strictly, so the first-inserted
bucket wins ties); its colour is the rounded mean of its channel sums. -/
def pickDominant (h : List ((ℤ × ℤ × ℤ) × HistEntry)) : DominantAcc :=
  h.foldl (fun d e =>
    if d.count < e.2.count then
      ⟨round ((e.2.r : ℚ) / (e.2.count : ℚ)), round ((e.2.g : ℚ) / (e.2.count : ℚ)),
        round ((e.2.b : ℚ) / (e.2.count : ℚ)), e.2.count⟩
    else d) ⟨0, 0, 0, 0⟩

/-- ImageProcessingService.rgbToHsl, returning `(h, s, l)` scaled to
`(0..360, 0..100, 0..100)`; the JS `switch (max)` matches `case r` first. -/
def rgbToHsl (ri gi bi : ℤ) : ℚ × ℚ × ℚ :=
  let r := (ri : ℚ) / 255
  let g := (gi : ℚ) / 255
  let b := (bi : ℚ) / 255
  let mx := max r (max g b)
  let mn := min r (min g b)
  let l := (mx + mn) / 2
  if mx = mn then (0, 0, l * 100)
  else
    let d := mx - mn
    let s := if 1 / 2 < l then d / (2 - mx - mn) else d / (mx + mn)
    let h :=
      if mx = r then ((g - b) / d + (if g < b then 6 else 0)) / 6
      else if mx = g then ((b - r) / d + 2) / 6
      else ((r - g) / d + 4) / 6
    (h * 360, s * 100, l * 100)

/-- ImageProcessingService.getColorName: ordered HSL range rules. -/
def getColorName (h s l : ℚ) : String :=
  if 85 ≤ l ∧ s ≤ 15 then "Trắng"
  else if l ≤ 15 then "Đen"
  else if s ≤ 15 ∧ 55 < l ∧ l < 85 then "Bạc"
  else if s ≤ 15 then "Xám"
  else if (0 ≤ h ∧ h ≤ 20) ∨ 340 ≤ h then "Đỏ"
  else if 20 < h ∧ h ≤ 45 then "Cam"
  else if 45 < h ∧ h ≤ 65 then "Vàng"
  else if 65 < h ∧ h ≤ 160 then "Xanh lá"
  else if 160 < h ∧ h ≤ 200 then "Xanh ngọc"
  else if 200 < h ∧ h ≤ 250 then "Xanh dương"
  else if 250 < h ∧ h ≤ 290 then "Tím"
  else if 290 < h ∧ h < 340 then "Hồng"
  else "Không xác định"

/-- Two-digit lowercase hex of one channel (`x.toString(16)` zero-padded;
channels are in `0..255` for valid inputs). -/
def hexByte (n : ℤ) : String :=
  let s := String.mk (Nat.toDigits 16 n.toNat)
  if s.length = 1 then "0" ++ s else s

/-- ImageProcessingService.rgbToHex. -/
def rgbToHex (r g b : ℤ) : String := "#" ++ hexByte r ++ hexByte g ++ hexByte b

/-- ImageProcessingService.detectVehicleColor (the modelled domain excludes
the exception path, which valid inputs never reach). -/
def detectVehicleColor (img : Image) (hint : Option VehicleRegion) : Option ColorInfo :=
  let vals := sampledVals img hint
  let dom := pickDominant (buildHistogram vals)
  let hsl := rgbToHsl dom.r dom.g dom.b
  some
    ⟨rgbToHex dom.r dom.g dom.b, getColorName hsl.1 hsl.2.1 hsl.2.2,
      (dom.count : ℚ) / colorPixelCountDenom img hint, ⟨dom.r, dom.g, dom.b⟩⟩

/-- Recognised configuration (VehicleDetectionService.config). -/
structure ProcessingConfig where
  minVehicleConfidence : ℚ
  minPlateConfidence : ℚ
  minLogoConfidence : ℚ
  autoUploadToCloud : Bool
  cloudEndpoint : String

/-- The defaults of VehicleDetectionService.config. -/
def defaultConfig : ProcessingConfig :=
  ⟨1 / 2, 2 / 5, 3 / 10, false, "https://your-cloud-api.com/process"⟩

/-- Cloud-readiness decision of VehicleDetectionService.processImage
(lines 106–109): the logo result is in scope but unused. -/
def computeIsReadyForCloud (cfg : ProcessingConfig) (vr : Option VehicleRegion)
    (lp : Option LicensePlateRegion) (_lg : Option LogoRegion) : Bool :=
  (match vr with
    | some v => decide (cfg.minVehicleConfidence ≤ v.confidence)
    | none => false) ||
  (match lp with
    | some p => decide (cfg.minPlateConfidence ≤ p.confidence)
    | none => false)

/-- The orchestrator-relevant fields of VehicleDetectionResult (id, timestamp
and processing time are impure metadata outside the modelled core). -/
structure VehicleDetectionResult where
  vehicleRegion : Option VehicleRegion
  licensePlate : Option LicensePlateRegion
  logoRegion : Option LogoRegion
  vehicleColor : Option ColorInfo
  imageWidth : ℕ
  imageHeight : ℕ
  isReadyForCloud : Bool
  deriving DecidableEq

/-- Fault injection for the numeric body of each detector: `some e` models an
unexpected failure (a thrown error) inside that detector's `try` block. -/
structure DetectorFaults where
  vehicle : Option String
  plate : Option String
  logo : Option String
  color : Option String

/-- The per-detector `try/catch` of ImageProcessingService: a thrown error is
caught and the detector returns `null` (e.g. lines 109–114 for the vehicle
detector). -/
def runDetector {α : Type} (fault : Option String) (compute : Option α) : Option α :=
  match fault with
  | some _ => none
  | none => compute

/-- No injected faults. -/
def noFaults : DetectorFaults := ⟨none, none, none, none⟩

/-- VehicleDetectionService.processImage: decode failures propagate (the body
has only a `finally`, no `catch`), detector-internal failures are absorbed by
each detector's own catch, and the result is assembled with the
cloud-readiness flag. -/
def processImageE (cfg : ProcessingConfig) (decoded : Except String Image)
    (faults : DetectorFaults) : Except String VehicleDetectionResult :=
  match decoded with
  | Except.error e => Except.error e
  | Except.ok img =>
      let vr := runDetector faults.vehicle (detectVehicleRegion img)
      let lp := runDetector faults.plate (detectLicensePlateRegion img vr)
      let lg := runDetector faults.logo (detectLogoRegion img vr)
      let vc := runDetector faults.color (detectVehicleColor img vr)
      Except.ok ⟨vr, lp, lg, vc, img.width, img.height, computeIsReadyForCloud cfg vr lp lg⟩

/-- Result of CloudUploadService.upload. -/
structure UploadResult where
  success : Bool
  jobId : Option String
  error : Option String
  deriving DecidableEq

/-- CloudUploadService.uploadWithRetry loop body, also counting the upload
calls performed; `upload n` is the transport's answer to the `n`-th attempt. -/
def uploadWithRetryAux (upload : ℕ → UploadResult) (maxRetries attempt : ℕ)
    (lastError : String) (calls : ℕ) : UploadResult × ℕ :=
  if h : attempt ≤ maxRetries then
    let r := upload attempt
    if r.success then (r, calls + 1)
    else uploadWithRetryAux upload maxRetries (attempt + 1) (r.error.getD "Unknown error")
      (calls + 1)
  else
    (⟨false, none,
      some ("Failed after " ++ toString maxRetries ++ " attempts: " ++ lastError)⟩, calls)
termination_by maxRetries + 1 - attempt
decreasing_by omega

/-- CloudUploadService.uploadWithRetry: `(final result, upload calls made)`. -/
def uploadWithRetry (upload : ℕ → UploadResult) (maxRetries : ℕ) : UploadResult × ℕ :=
  uploadWithRetryAux upload maxRetries 1 "" 0

/-- Validity of a colour-classifier call: the no-hint central crop is
nonempty, or the hint is an integer-valued bbox of positive size lying inside
the image (the shape every orchestrator-produced hint has). -/
def hintValidForColor (img : Image) : Option VehicleRegion → Prop
  | none => 0 < img.width * 3 / 5 ∧ 0 < img.height * 2 / 5
  | some v =>
      ∃ nx ny nw nh : ℕ,
        v.bbox = ⟨(nx : ℚ), (ny : ℚ), (nw : ℚ), (nh : ℚ)⟩ ∧ 0 < nw ∧ 0 < nh ∧
          nx + nw ≤ img.width ∧ ny + nh ≤ img.height

/-- Constant image. -/
def constImage (w h : ℕ) (p : Pixel) : Image := ⟨w, h, fun _ _ => p⟩

/-- 8×8 uniform bright image (grayscale ≡ 1). -/
def img1s : Image := constImage 8 8 ⟨1, 1, 1⟩

/-- 4×4 uniform zero image. -/
def imgZ : Image := constImage 4 4 ⟨0, 0, 0⟩

/-- 8×8 zero image with one bright pixel at `(6, 6)`. -/
def imgDot : Image :=
  ⟨8, 8, fun x y => if x = 6 ∧ y = 6 then ⟨1, 1, 1⟩ else ⟨0, 0, 0⟩⟩

/-- 8×8 zero image with one bright pixel at `(1, 2)`: horizontal-Sobel edges
concentrated around rows 1–3 near the left edge. -/
def imgDotP : Image :=
  ⟨8, 8, fun x y => if x = 1 ∧ y = 2 then ⟨1, 1, 1⟩ else ⟨0, 0, 0⟩⟩

/-- 2×2 image with a single bright pixel at the origin: its horizontal and
full gradient-magnitude fields differ. -/
def img2 : Image :=
  ⟨2, 2, fun x y => if x = 0 ∧ y = 0 then ⟨1, 1, 1⟩ else ⟨0, 0, 0⟩⟩

/-- 4×4 uniform image of RGB (26, 26, 46). -/
def imgBlack : Image := constImage 4 4 ⟨26, 26, 46⟩

/-- 12×12 zero image with one bright pixel at `(5, 2)`: a sharp Laplacian
blob inside the hinted logo search area of `hintL`. -/
def imgLogo2 : Image :=
  ⟨12, 12, fun x y => if x = 5 ∧ y = 2 then ⟨1, 1, 1⟩ else ⟨0, 0, 0⟩⟩

/-- Vehicle hint used with `imgLogo2`. -/
def hintL : VehicleRegion := ⟨VehicleType.front, ⟨4, 2, 4, 4⟩, 1 / 2⟩

/-- Vehicle hint of height 5 (30% offset 1.5 is fractional) used to exhibit
the floor effect on plate candidate bounds. -/
def hintV : VehicleRegion := ⟨VehicleType.front, ⟨0, 0, 8, 5⟩, 1 / 2⟩

deriving instance DecidableEq for Except

/-- Fault injection hitting only the logo detector. -/
def logoFault : DetectorFaults := ⟨none, none, some "tensor backend failure", none⟩

/-- The logo field of an orchestrator outcome (`some` of the detector field
when processing succeeded, `none` when the call failed). -/
def resultLogo : Except String VehicleDetectionResult → Option (Option LogoRegion)
  | Except.ok r => some r.logoRegion
  | Except.error _ => none

/-- A transport stub that fails twice and then succeeds (spec §8's retry
scenario). -/
def stubFailTwice : ℕ → UploadResult := fun n =>
  if n ≤ 2 then ⟨false, none, some ("network down " ++ toString n)⟩
  else ⟨true, some "job_42", none⟩

/-- A transport stub that always fails. -/
def stubAlwaysFail : ℕ → UploadResult := fun n =>
  ⟨false, none, some ("timeout " ++ toString n)⟩

/-! Helper lemmas about the loop and fold combinators of the embedding. -/

theorem loopPositions_mem {start bound step v : ℚ}
    (h : v ∈ loopPositions start bound step) : start ≤ v ∧ v < bound := by
  unfold loopPositions at h
  by_cases hs : 0 < step
  · simp only [if_pos hs, List.mem_map, List.mem_range] at h
    obtain ⟨k, hk, rfl⟩ := h
    constructor
    · have h0 : (0 : ℚ) ≤ (k : ℚ) * step := mul_nonneg (Nat.cast_nonneg k) (le_of_lt hs)
      linarith
    · have hq : ((k : ℚ)) < (bound - start) / step := by
        by_contra hle
        push_neg at hle
        have hceil : Nat.ceil ((bound - start) / step) ≤ k := Nat.ceil_le.mpr hle
        omega
      have h2 : (k : ℚ) * step < bound - start := (lt_div_iff hs).1 hq
      linarith
  · simp [if_neg hs] at h

theorem foldl_max_init_le (g : ℕ → ℚ) :
    ∀ (l : List ℕ) (m : ℚ), m ≤ l.foldl (fun a x => max a (g x)) m := by
  intro l
  induction l with
  | nil => intro m; simp
  | cons a t ih =>
      intro m
      calc m ≤ max m (g a) := le_max_left _ _
        _ ≤ t.foldl (fun a x => max a (g x)) (max m (g a)) := ih _

theorem le_foldl_max (g : ℕ → ℚ) :
    ∀ (l : List ℕ) (m : ℚ) (i : ℕ), i ∈ l → g i ≤ l.foldl (fun a x => max a (g x)) m := by
  intro l
  induction l with
  | nil => intro m i h; simp at h
  | cons a t ih =>
      intro m i h
      rcases List.mem_cons.1 h with rfl | hmem
      · calc g i ≤ max m (g i) := le_max_right _ _
          _ ≤ t.foldl (fun a x => max a (g x)) (max m (g i)) := foldl_max_init_le _ _ _
      · exact ih _ _ hmem

theorem foldl_max_le (g : ℕ → ℚ) (B : ℚ) :
    ∀ (l : List ℕ) (m : ℚ), m ≤ B → (∀ i ∈ l, g i ≤ B) →
      l.foldl (fun a x => max a (g x)) m ≤ B := by
  intro l
  induction l with
  | nil => intro m hm _; simpa using hm
  | cons a t ih =>
      intro m hm hl
      exact ih _ (max_le hm (hl a (List.mem_cons_self a t)))
        (fun i hi => hl i (List.mem_cons_of_mem a hi))

theorem maxOf2D_init_le (img : Image) (f : ℤ → ℤ → ℚ) :
    ∀ (l : List ℕ) (m : ℚ),
      m ≤ l.foldl
        (fun m y =>
          (List.range img.width).foldl (fun m2 x => max m2 (f ((x : ℕ) : ℤ) ((y : ℕ) : ℤ))) m)
        m := by
  intro l
  induction l with
  | nil => intro m; simp
  | cons a t ih =>
      intro m
      calc m
          ≤ (List.range img.width).foldl (fun m2 x => max m2 (f ((x : ℕ) : ℤ) ((a : ℕ) : ℤ))) m :=
            foldl_max_init_le _ _ _
        _ ≤ _ := ih _

theorem maxOf2D_nonneg (img : Image) (f : ℤ → ℤ → ℚ) : 0 ≤ maxOf2D img f := by
  unfold maxOf2D
  exact maxOf2D_init_le img f _ 0

theorem le_maxOf2D (img : Image) (f : ℤ → ℤ → ℚ) (x y : ℕ)
    (hx : x < img.width) (hy : y < img.height) : f ((x : ℕ) : ℤ) ((y : ℕ) : ℤ) ≤ maxOf2D img f := by
  unfold maxOf2D
  have main : ∀ (l : List ℕ) (m : ℚ), y ∈ l →
      f ((x : ℕ) : ℤ) ((y : ℕ) : ℤ) ≤ l.foldl
        (fun m yy =>
          (List.range img.width).foldl (fun m2 xx => max m2 (f ((xx : ℕ) : ℤ) ((yy : ℕ) : ℤ))) m)
        m := by
    intro l
    induction l with
    | nil => intro m h; simp at h
    | cons a t ih =>
        intro m h
        rcases List.mem_cons.1 h with rfl | hmem
        · calc f ((x : ℕ) : ℤ) ((y : ℕ) : ℤ)
              ≤ (List.range img.width).foldl
                  (fun m2 xx => max m2 (f ((xx : ℕ) : ℤ) ((y : ℕ) : ℤ))) m :=
                le_foldl_max _ _ _ _ (List.mem_range.2 hx)
            _ ≤ _ := maxOf2D_init_le img f t _
        · exact ih _ hmem
  exact main _ 0 (List.mem_range.2 hy)

theorem maxOf2D_le (img : Image) (f : ℤ → ℤ → ℚ) (B : ℚ) (hB : 0 ≤ B)
    (hf : ∀ x y : ℤ, f x y ≤ B) : maxOf2D img f ≤ B := by
  unfold maxOf2D
  have main : ∀ (l : List ℕ) (m : ℚ), m ≤ B →
      l.foldl
        (fun m y =>
          (List.range img.width).foldl (fun m2 x => max m2 (f ((x : ℕ) : ℤ) ((y : ℕ) : ℤ))) m)
        m ≤ B := by
    intro l
    induction l with
    | nil => intro m hm; simpa using hm
    | cons a t ih =>
        intro m hm
        exact ih _ (foldl_max_le _ _ _ _ hm (fun i _ => hf _ _))
  exact main _ 0 hB

theorem maxOf2D_eq_zero (img : Image) (f : ℤ → ℤ → ℚ)
    (hf : ∀ x y : ℤ, f x y = 0) : maxOf2D img f = 0 :=
  le_antisymm (maxOf2D_le img f 0 le_rfl (fun x y => le_of_eq (hf x y)))
    (maxOf2D_nonneg img f)

theorem foldlBest_spec (d : ℕ × ℕ → ℚ) (w : ℕ × ℕ → BoundingBox) :
    ∀ (l : List (ℕ × ℕ)) (acc : ℚ × BoundingBox),
      acc.1 ≤ (l.foldl (fun acc p => if acc.1 < d p then (d p, w p) else acc) acc).1 ∧
      (∀ p ∈ l, d p ≤ (l.foldl (fun acc p => if acc.1 < d p then (d p, w p) else acc) acc).1) ∧
      (l.foldl (fun acc p => if acc.1 < d p then (d p, w p) else acc) acc = acc ∨
        ∃ l1 p l2, l = l1 ++ p :: l2 ∧
          l.foldl (fun acc p => if acc.1 < d p then (d p, w p) else acc) acc = (d p, w p) ∧
          acc.1 < d p ∧ ∀ q ∈ l1, d q < d p) := by
  intro l
  induction l with
  | nil => intro acc; refine ⟨le_rfl, ?_, Or.inl rfl⟩; intro p hp; simp at hp
  | cons a t ih =>
      intro acc
      by_cases ha : acc.1 < d a
      · have step : (a :: t).foldl (fun acc p => if acc.1 < d p then (d p, w p) else acc) acc =
            t.foldl (fun acc p => if acc.1 < d p then (d p, w p) else acc) (d a, w a) := by
          simp [List.foldl_cons, if_pos ha]
        obtain ⟨h1, h2, h3⟩ := ih (d a, w a)
        rw [step]
        refine ⟨le_trans (le_of_lt ha) h1, ?_, ?_⟩
        · intro p hp
          rcases List.mem_cons.1 hp with rfl | hmem
          · exact h1
          · exact h2 p hmem
        · rcases h3 with heq | ⟨l1, p, l2, hsplit, heq, hlt, hall⟩
          · exact Or.inr ⟨[], a, t, by simp, heq, ha, by simp⟩
          · refine Or.inr ⟨a :: l1, p, l2, by simp [hsplit], heq, lt_trans ha hlt, ?_⟩
            intro q hq
            rcases List.mem_cons.1 hq with rfl | hq2
            · exact hlt
            · exact hall q hq2
      · have step : (a :: t).foldl (fun acc p => if acc.1 < d p then (d p, w p) else acc) acc =
            t.foldl (fun acc p => if acc.1 < d p then (d p, w p) else acc) acc := by
          simp [List.foldl_cons, if_neg ha]
        obtain ⟨h1, h2, h3⟩ := ih acc
        rw [step]
        refine ⟨h1, ?_, ?_⟩
        · intro p hp
          rcases List.mem_cons.1 hp with rfl | hmem
          · exact le_trans (not_lt.1 ha) h1
          · exact h2 p hmem
        · rcases h3 with heq | ⟨l1, p, l2, hsplit, heq, hlt, hall⟩
          · exact Or.inl heq
          · refine Or.inr ⟨a :: l1, p, l2, by simp [hsplit], heq, hlt, ?_⟩
            intro q hq
            rcases List.mem_cons.1 hq with rfl | hq2
            · exact lt_of_le_of_lt (not_lt.1 ha) hlt
            · exact hall q hq2

theorem bestScan_spec (d : ℕ × ℕ → ℚ) (w : ℕ × ℕ → BoundingBox) (l : List (ℕ × ℕ)) :
    0 ≤ (bestScan d w l).1 ∧
    (∀ p ∈ l, d p ≤ (bestScan d w l).1) ∧
    (bestScan d w l = (0, ⟨0, 0, 0, 0⟩) ∨
      ∃ l1 p l2, l = l1 ++ p :: l2 ∧ bestScan d w l = (d p, w p) ∧ 0 < d p ∧
        ∀ q ∈ l1, d q < d p) := by
  have h := foldlBest_spec d w l (0, ⟨0, 0, 0, 0⟩)
  exact ⟨h.1, h.2.1, h.2.2⟩

theorem insertByScoreDesc_mem {x c : PlateCandidate} :
    ∀ {l : List PlateCandidate}, x ∈ insertByScoreDesc c l → x = c ∨ x ∈ l := by
  intro l
  induction l with
  | nil => intro h; simpa [insertByScoreDesc] using h
  | cons a t ih =>
      intro h
      unfold insertByScoreDesc at h
      by_cases hs : a.score < c.score
      · rw [if_pos hs] at h
        rcases List.mem_cons.1 h with rfl | h2
        · exact Or.inl rfl
        · exact Or.inr h2
      · rw [if_neg hs] at h
        rcases List.mem_cons.1 h with rfl | h2
        · exact Or.inr (List.mem_cons_self _ _)
        · rcases ih h2 with h3 | h3
          · exact Or.inl h3
          · exact Or.inr (List.mem_cons_of_mem _ h3)

theorem sortByScoreDesc_subset {x : PlateCandidate} :
    ∀ {l : List PlateCandidate}, x ∈ sortByScoreDesc l → x ∈ l := by
  have main : ∀ (l acc : List PlateCandidate),
      x ∈ l.foldl (fun acc c => insertByScoreDesc c acc) acc → x ∈ acc ∨ x ∈ l := by
    intro l
    induction l with
    | nil => intro acc h; exact Or.inl h
    | cons a t ih =>
        intro acc h
        rcases ih _ h with h2 | h2
        · rcases insertByScoreDesc_mem h2 with rfl | h3
          · exact Or.inr (List.mem_cons_self _ _)
          · exact Or.inl h3
        · exact Or.inr (List.mem_cons_of_mem _ h2)
  intro l h
  rcases main l [] h with h2 | h2
  · simp at h2
  · exact h2

theorem plateCandidates_elim {img : Image} {hint : Option VehicleRegion} {c : PlateCandidate}
    (h : c ∈ plateCandidates img hint) :
    ∃ s ∈ plateSizes img,
      ∃ y ∈ loopPositions (plateSearchBounds img hint).startY
          ((plateSearchBounds img hint).endY - s.2) (s.2 * (1 / 2)),
        ∃ x ∈ loopPositions (plateSearchBounds img hint).startX
            ((plateSearchBounds img hint).endX - s.1) (s.1 * (3 / 10)),
          c.bbox = ⟨((Int.floor x : ℤ) : ℚ), ((Int.floor y : ℤ) : ℚ),
              ((Int.floor s.1 : ℤ) : ℚ), ((Int.floor s.2 : ℤ) : ℚ)⟩ ∧
          c.score = (plateWindowVals img s x y).sum / (s.1 * s.2) * (3 / 5) +
            (((plateWindowVals img s x y).countP (fun v => decide ((3 : ℚ) / 10 < v))) : ℚ) /
              (s.1 * s.2) * (2 / 5) := by
  unfold plateCandidates at h
  obtain ⟨s, hs, hmem⟩ := List.mem_flatMap.1 h
  unfold plateCandidatesFor at hmem
  obtain ⟨y, hy, hmem2⟩ := List.mem_flatMap.1 hmem
  obtain ⟨x, hx, hfx⟩ := List.mem_filterMap.1 hmem2
  refine ⟨s, hs, y, hy, x, hx, ?_⟩
  simp only at hfx
  by_cases hcond : 3 / 20 < (plateWindowVals img s x y).sum / (s.1 * s.2) ∧
      1 / 10 < (((plateWindowVals img s x y).countP (fun v => decide ((3 : ℚ) / 10 < v))) : ℚ) /
        (s.1 * s.2)
  · rw [if_pos hcond] at hfx
    cases hfx
    exact ⟨rfl, rfl⟩
  · rw [if_neg hcond] at hfx
    cases hfx

theorem detectLicensePlateRegion_elim {img : Image} {hint : Option VehicleRegion}
    {r : LicensePlateRegion} (h : detectLicensePlateRegion img hint = some r) :
    ∃ c ∈ plateCandidates img hint, r = ⟨c.bbox, min (c.score * 2) (9 / 10)⟩ := by
  unfold detectLicensePlateRegion at h
  cases hs : sortByScoreDesc (plateCandidates img hint) with
  | nil => rw [hs] at h; cases h
  | cons best rest =>
      rw [hs] at h
      refine ⟨best, sortByScoreDesc_subset (by rw [hs]; exact List.mem_cons_self _ _), ?_⟩
      cases h
      rfl

theorem logoScan_score_bound (img : Image) (hint : Option VehicleRegion) (B : ℚ → Prop)
    (hB : ∀ (hs x y : ℚ), (logoSamples img hs x y).length ≠ 0 →
      B ((logoSamples img hs x y).sum / ((logoSamples img hs x y).length : ℚ))) :
    logoScan img hint = none ∨ ∃ c, logoScan img hint = some c ∧ B c.score := by
  unfold logoScan
  set P : Option LogoCandidate → Prop :=
    fun o => o = none ∨ ∃ c, o = some c ∧ B c.score with hP
  have stepInv : ∀ (size : ℚ) (l : List (ℚ × ℚ)) (best : Option LogoCandidate), P best →
      P (l.foldl (fun best p =>
        let smp := logoSamples img (size / 2) p.1 p.2
        if smp.length = 0 then best
        else
          let score := smp.sum / (smp.length : ℚ)
          match best with
          | none => some ⟨logoBox size p.1 p.2, score⟩
          | some b => if b.score < score then some ⟨logoBox size p.1 p.2, score⟩ else best)
        best) := by
    intro size l
    induction l with
    | nil => intro best hb; exact hb
    | cons a t ih =>
        intro best hb
        apply ih
        by_cases hlen : (logoSamples img (size / 2) a.1 a.2).length = 0
        · simpa [hlen] using hb
        · have hBs := hB (size / 2) a.1 a.2 hlen
          rcases hb with rfl | ⟨c, rfl, hc⟩
          · simp only [if_neg hlen]
            exact Or.inr ⟨_, rfl, hBs⟩
          · simp only [if_neg hlen]
            by_cases hsc : c.score < (logoSamples img (size / 2) a.1 a.2).sum /
                ((logoSamples img (size / 2) a.1 a.2).length : ℚ)
            · simp only [if_pos hsc]
              exact Or.inr ⟨_, rfl, hBs⟩
            · simp only [if_neg hsc]
              exact Or.inr ⟨c, rfl, hc⟩
  have main : ∀ (ls : List ℚ) (best : Option LogoCandidate), P best →
      P (ls.foldl (fun best size =>
        (logoWindowPositions img (logoSearch img hint) size).foldl (fun best p =>
          let smp := logoSamples img (size / 2) p.1 p.2
          if smp.length = 0 then best
          else
            let score := smp.sum / (smp.length : ℚ)
            match best with
            | none => some ⟨logoBox size p.1 p.2, score⟩
            | some b => if b.score < score then some ⟨logoBox size p.1 p.2, score⟩ else best)
          best) best) := by
    intro ls
    induction ls with
    | nil => intro best hb; exact hb
    | cons a t ih =>
        intro best hb
        exact ih _ (stepInv a _ _ hb)
  exact main _ none (Or.inl rfl)

theorem getD_zero_or_mem {α : Type} (l : List α) (i : ℕ) (d : α) :
    l.getD i d = d ∨ l.getD i d ∈ l := by
  induction l generalizing i with
  | nil => exact Or.inl rfl
  | cons a t ih =>
      cases i with
      | zero => exact Or.inr (List.mem_cons_self _ _)
      | succ j =>
          rcases ih j with h | h
          · exact Or.inl h
          · exact Or.inr (List.mem_cons_of_mem _ h)

theorem cropVals_length (img : Image) (x0 y0 cw ch : ℕ) :
    (cropVals img x0 y0 cw ch).length = ch * cw := by
  unfold cropVals
  rw [List.length_flatMap]
  simp [Function.comp_def, mul_comm]

theorem histInsert_total (key : ℤ × ℤ × ℤ) (r g b : ℤ) :
    ∀ (h : List ((ℤ × ℤ × ℤ) × HistEntry)),
      ((histInsert key r g b h).map (fun e => e.2.count)).sum =
        (h.map (fun e => e.2.count)).sum + 1 := by
  intro h
  induction h with
  | nil => simp [histInsert]
  | cons e t ih =>
      unfold histInsert
      by_cases hk : e.1 = key
      · rw [if_pos hk]; simp; omega
      · rw [if_neg hk]; simp [ih]; omega

theorem buildHistogram_total (l : List (ℚ × ℚ × ℚ)) :
    ((buildHistogram l).map (fun e => e.2.count)).sum = l.length := by
  unfold buildHistogram
  have main : ∀ (l : List (ℚ × ℚ × ℚ)) (acc : List ((ℤ × ℤ × ℤ) × HistEntry)),
      ((l.foldl (fun h v =>
        histInsert (quantKey (round (v.1 * 255)) (round (v.2.1 * 255)) (round (v.2.2 * 255)))
          (round (v.1 * 255)) (round (v.2.1 * 255)) (round (v.2.2 * 255)) h) acc).map
        (fun e => e.2.count)).sum = (acc.map (fun e => e.2.count)).sum + l.length := by
    intro l
    induction l with
    | nil => intro acc; simp
    | cons p t ih =>
        intro acc
        rw [List.foldl_cons, ih, histInsert_total]
        simp
        omega
  simpa using main l []

theorem pickDominant_count_le (h : List ((ℤ × ℤ × ℤ) × HistEntry)) :
    (pickDominant h).count ≤ (h.map (fun e => e.2.count)).sum := by
  unfold pickDominant
  have main : ∀ (l : List ((ℤ × ℤ × ℤ) × HistEntry)) (acc : DominantAcc),
      (l.foldl (fun d e =>
        if d.count < e.2.count then
          ⟨round ((e.2.r : ℚ) / (e.2.count : ℚ)), round ((e.2.g : ℚ) / (e.2.count : ℚ)),
            round ((e.2.b : ℚ) / (e.2.count : ℚ)), e.2.count⟩
        else d) acc).count = acc.count ∨
      ∃ e ∈ l, (l.foldl (fun d e =>
        if d.count < e.2.count then
          ⟨round ((e.2.r : ℚ) / (e.2.count : ℚ)), round ((e.2.g : ℚ) / (e.2.count : ℚ)),
            round ((e.2.b : ℚ) / (e.2.count : ℚ)), e.2.count⟩
        else d) acc).count = e.2.count := by
    intro l
    induction l with
    | nil => intro acc; exact Or.inl rfl
    | cons a t ih =>
        intro acc
        rw [List.foldl_cons]
        by_cases ha : acc.count < a.2.count
        · rw [if_pos ha]
          rcases ih ⟨round ((a.2.r : ℚ) / (a.2.count : ℚ)), round ((a.2.g : ℚ) / (a.2.count : ℚ)),
              round ((a.2.b : ℚ) / (a.2.count : ℚ)), a.2.count⟩ with h2 | ⟨e, he, h2⟩
          · exact Or.inr ⟨a, List.mem_cons_self _ _, h2⟩
          · exact Or.inr ⟨e, List.mem_cons_of_mem _ he, h2⟩
        · rw [if_neg ha]
          rcases ih acc with h2 | ⟨e, he, h2⟩
          · exact Or.inl h2
          · exact Or.inr ⟨e, List.mem_cons_of_mem _ he, h2⟩
  rcases main h ⟨0, 0, 0, 0⟩ with h2 | ⟨e, he, h2⟩
  · rw [h2]; exact Nat.zero_le _
  · rw [h2]
    exact List.single_le_sum (fun x _ => Nat.zero_le x) _
      (List.mem_map.2 ⟨e, he, rfl⟩)

/-! Claim theorems. -/

/-- C1: for every processed image, `isReadyForCloud` is true if and only if a
vehicle region was emitted with confidence at least the configured
`minVehicleConfidence` (default 0.5) or a plate region was emitted with
confidence at least the configured `minPlateConfidence` (default 0.4);
`minLogoConfidence` and the logo result play no role in the decision. -/
theorem c1_isReadyForCloud_iff (cfg : ProcessingConfig) (vr : Option VehicleRegion)
    (lp : Option LicensePlateRegion) (lg lg2 : Option LogoRegion) (q : ℚ) :
    (computeIsReadyForCloud cfg vr lp lg = true ↔
      (∃ v, vr = some v ∧ cfg.minVehicleConfidence ≤ v.confidence) ∨
      (∃ p, lp = some p ∧ cfg.minPlateConfidence ≤ p.confidence)) ∧
    computeIsReadyForCloud cfg vr lp lg =
      computeIsReadyForCloud { cfg with minLogoConfidence := q } vr lp lg2 ∧
    defaultConfig.minVehicleConfidence = 1 / 2 ∧
    defaultConfig.minPlateConfidence = 2 / 5 := by
  refine ⟨?_, rfl, rfl, rfl⟩
  unfold computeIsReadyForCloud
  cases vr <;> cases lp <;> simp

/-- C8: `uploadWithRetry` returns the result (with its jobId) of the first
successful attempt, making exactly that many upload calls; when every one of
the `maxRetries ≥ 1` attempts fails it makes exactly `maxRetries` calls and
returns a failure whose error string aggregates the final attempt's failure
reason. -/
theorem c8_uploadWithRetry (upload : ℕ → UploadResult) (maxRetries : ℕ)
    (hmr : 1 ≤ maxRetries) :
    (∀ k, 1 ≤ k → k ≤ maxRetries → (upload k).success = true →
      (∀ j, 1 ≤ j → j < k → (upload j).success = false) →
      uploadWithRetry upload maxRetries = (upload k, k)) ∧
    ((∀ j, 1 ≤ j → j ≤ maxRetries → (upload j).success = false) →
      uploadWithRetry upload maxRetries =
        (⟨false, none,
          some ("Failed after " ++ toString maxRetries ++ " attempts: " ++
            ((upload maxRetries).error.getD "Unknown error"))⟩, maxRetries)) := by
  have auxSucc : ∀ (n a : ℕ) (le : String) (calls : ℕ), a + n ≤ maxRetries →
      (upload (a + n)).success = true →
      (∀ j, a ≤ j → j < a + n → (upload j).success = false) →
      uploadWithRetryAux upload maxRetries a le calls = (upload (a + n), calls + n + 1) := by
    intro n
    induction n with
    | zero =>
        intro a le calls hle hsucc _
        unfold uploadWithRetryAux
        rw [dif_pos (by omega : a ≤ maxRetries)]
        simp only [Nat.add_zero] at hsucc
        simp [hsucc]
    | succ m ih =>
        intro a le calls hle hsucc hfail
        unfold uploadWithRetryAux
        rw [dif_pos (by omega : a ≤ maxRetries)]
        have hfa : (upload a).success = false := hfail a le_rfl (by omega)
        simp only [hfa]
        have := ih (a + 1) ((upload a).error.getD "Unknown error") (calls + 1)
          (by omega) (by rw [show a + 1 + m = a + (m + 1) by omega]; exact hsucc)
          (fun j hj1 hj2 => hfail j (by omega) (by omega))
        rw [show a + 1 + m = a + (m + 1) by omega] at this
        simp only [Bool.false_eq_true, if_false]
        rw [this]
        simp only [Prod.mk.injEq]
        exact ⟨trivial, by omega⟩
  have auxFail : ∀ (n a : ℕ) (le : String) (calls : ℕ), a + n = maxRetries + 1 →
      (∀ j, a ≤ j → j ≤ maxRetries → (upload j).success = false) →
      uploadWithRetryAux upload maxRetries a le calls =
        (⟨false, none,
          some ("Failed after " ++ toString maxRetries ++ " attempts: " ++
            (if a ≤ maxRetries then (upload maxRetries).error.getD "Unknown error" else le))⟩,
          calls + n) := by
    intro n
    induction n with
    | zero =>
        intro a le calls heq _
        unfold uploadWithRetryAux
        rw [dif_neg (by omega : ¬ a ≤ maxRetries)]
        rw [if_neg (by omega : ¬ a ≤ maxRetries)]
        simp
    | succ m ih =>
        intro a le calls heq hfail
        have ha : a ≤ maxRetries := by omega
        unfold uploadWithRetryAux
        rw [dif_pos ha]
        have hfa : (upload a).success = false := hfail a le_rfl ha
        simp only [hfa, Bool.false_eq_true, if_false]
        rw [ih (a + 1) ((upload a).error.getD "Unknown error") (calls + 1) (by omega)
          (fun j hj1 hj2 => hfail j (by omega) hj2)]
        by_cases hend : a + 1 ≤ maxRetries
        · rw [if_pos hend, if_pos ha]
          simp only [Prod.mk.injEq]
          exact ⟨trivial, by omega⟩
        · have haeq : a = maxRetries := by omega
          rw [if_neg hend, if_pos ha, haeq]
          simp only [Prod.mk.injEq]
          exact ⟨trivial, by omega⟩
  constructor
  · intro k hk1 hk2 hsucc hfail
    unfold uploadWithRetry
    have := auxSucc (k - 1) 1 "" 0 (by omega) (by rw [show 1 + (k - 1) = k by omega]; exact hsucc)
      (fun j hj1 hj2 => hfail j hj1 (by omega))
    rw [show 1 + (k - 1) = k by omega] at this
    rw [this]
    simp only [Prod.mk.injEq]
    exact ⟨trivial, by omega⟩
  · intro hfail
    unfold uploadWithRetry
    rw [auxFail maxRetries 1 "" 0 (by omega) (fun j hj1 hj2 => hfail j hj1 hj2)]
    rw [if_pos hmr]
    simp only [Prod.mk.injEq]
    exact ⟨trivial, by omega⟩

/-- C8 witness: with the stub that fails twice then succeeds,
`uploadWithRetry(·, 3)` succeeds on the third attempt with that attempt's
jobId after exactly 3 calls; with the always-failing stub it fails after
exactly 3 calls with the aggregated error string. -/
theorem c8_witness :
    uploadWithRetry stubFailTwice 3 = (⟨true, some "job_42", none⟩, 3) ∧
    uploadWithRetry stubAlwaysFail 3 =
      (⟨false, none, some "Failed after 3 attempts: timeout 3"⟩, 3) := by
  constructor
  · rw [(c8_uploadWithRetry stubFailTwice 3 (by decide)).1 3 (by decide) (by decide)
      (by decide) (fun j h1 h2 => by interval_cases j <;> decide)]
    decide
  · rw [(c8_uploadWithRetry stubAlwaysFail 3 (by decide)).2
      (fun j h1 h2 => by simp [stubAlwaysFail])]
    decide

set_option maxRecDepth 200000 in
set_option maxHeartbeats 2000000 in
/-- C2 counterexample: the claim says an unexpected failure in numeric
computation inside a detector is fatal and is never reported as a mere null
field.  On `img1s`, injecting a failure into the logo detector's numeric body
yields a successful processing call whose `logoRegion` is null, and the
orchestrator's result is byte-identical to the fault-free run — the caller
cannot distinguish the failure from a soft miss. -/
theorem c2_counterexample :
    processImageE defaultConfig (Except.ok img1s) logoFault =
      processImageE defaultConfig (Except.ok img1s) noFaults ∧
    resultLogo (processImageE defaultConfig (Except.ok img1s) logoFault) = some none := by
  with_unfolding_all decide

/-- C2 amended: only a decoding failure is fatal to the processing call; an
unexpected failure inside a detector is caught by that detector's own
`catch`, surfaced as a null field of a successful result, and is therefore
indistinguishable from a soft miss. -/
theorem c2_detector_failure_soft (cfg : ProcessingConfig) (decoded : Except String Image)
    (faults : DetectorFaults) :
    (∀ e, decoded = Except.error e → processImageE cfg decoded faults = Except.error e) ∧
    (∀ img, decoded = Except.ok img →
      ∃ r, processImageE cfg decoded faults = Except.ok r ∧
        (faults.vehicle.isSome = true → r.vehicleRegion = none) ∧
        (faults.plate.isSome = true → r.licensePlate = none) ∧
        (faults.logo.isSome = true → r.logoRegion = none) ∧
        (faults.color.isSome = true → r.vehicleColor = none)) := by
  constructor
  · intro e he; subst he; rfl
  · intro img he; subst he
    refine ⟨_, rfl, ?_, ?_, ?_, ?_⟩ <;> intro hf
    · obtain ⟨s, hs⟩ := Option.isSome_iff_exists.1 hf
      show runDetector faults.vehicle (detectVehicleRegion img) = none
      rw [hs]; rfl
    · obtain ⟨s, hs⟩ := Option.isSome_iff_exists.1 hf
      show runDetector faults.plate _ = none
      rw [hs]; rfl
    · obtain ⟨s, hs⟩ := Option.isSome_iff_exists.1 hf
      show runDetector faults.logo _ = none
      rw [hs]; rfl
    · obtain ⟨s, hs⟩ := Option.isSome_iff_exists.1 hf
      show runDetector faults.color _ = none
      rw [hs]; rfl

/-- C2 witness: a decode failure propagates as an error, and a logo-detector
fault on `img1s` yields a successful result whose logo field is null. -/
theorem c2_witness :
    processImageE defaultConfig (Except.error "decode failed") logoFault =
      Except.error "decode failed" ∧
    ∃ r, processImageE defaultConfig (Except.ok img1s) logoFault = Except.ok r ∧
      r.logoRegion = none := by
  constructor
  · exact (c2_detector_failure_soft defaultConfig (Except.error "decode failed")
      logoFault).1 "decode failed" rfl
  · obtain ⟨r, hr, _, _, hlogo, _⟩ :=
      (c2_detector_failure_soft defaultConfig (Except.ok img1s) logoFault).2 img1s rfl
    exact ⟨r, hr, hlogo rfl⟩

theorem sobelXAt_zero {img : Image} (hz : ∀ x y : ℤ, grayAt img x y = 0) (x y : ℤ) :
    sobelXAt img x y = 0 := by
  simp [sobelXAt, hz]

theorem sobelYAt_zero {img : Image} (hz : ∀ x y : ℤ, grayAt img x y = 0) (x y : ℤ) :
    sobelYAt img x y = 0 := by
  simp [sobelYAt, hz]

theorem magSq_zero {img : Image} (hz : ∀ x y : ℤ, grayAt img x y = 0) (x y : ℤ) :
    magSq img x y = 0 := by
  simp [magSq, sobelXAt_zero hz, sobelYAt_zero hz]

theorem absGradX_zero {img : Image} (hz : ∀ x y : ℤ, grayAt img x y = 0) (x y : ℤ) :
    absGradX img x y = 0 := by
  simp [absGradX, sobelXAt_zero hz]

theorem lapAbsAt_zero {img : Image} (hz : ∀ x y : ℤ, grayAt img x y = 0) (x y : ℤ) :
    lapAbsAt img x y = 0 := by
  simp [lapAbsAt, lapAt, hz]

theorem edgePass_false {img : Image} (hz : ∀ x y : ℤ, grayAt img x y = 0) (x y : ℤ) :
    edgePass img x y = false := by
  have hmax : maxMagSq img = 0 := maxOf2D_eq_zero img _ (magSq_zero hz)
  simp [edgePass, hmax, magSq_zero hz]

theorem windowDensity_zero {img : Image} (hz : ∀ x y : ℤ, grayAt img x y = 0) (gx gy : ℕ) :
    windowDensity img gx gy = 0 := by
  have hcount : windowEdgeCount img (edgeData img) gx gy = 0 := by
    unfold windowEdgeCount
    apply List.countP_eq_zero.2
    intro d _
    have hall : ∀ b ∈ edgeData img, b = false := by
      intro b hb
      obtain ⟨i, _, rfl⟩ := List.mem_map.1 hb
      exact edgePass_false hz _ _
    rcases getD_zero_or_mem (edgeData img) ((gy * cellH img + d.2) * img.width +
        (gx * cellW img + d.1)) false with h | h
    · rw [h]; simp
    · rw [hall _ h]; simp
  unfold windowDensity
  rw [hcount]
  simp

theorem detectVehicleRegion_zero {img : Image} (hz : ∀ x y : ℤ, grayAt img x y = 0) :
    detectVehicleRegion img = none := by
  have hspec := bestScan_spec (fun p => windowDensity img p.1 p.2) (vehicleWindowBox img)
    vehiclePositions
  unfold detectVehicleRegion vehicleScan
  rcases hspec.2.2 with heq | ⟨l1, p, l2, _, _, hpos, _⟩
  · rw [heq]
    norm_num
  · rw [windowDensity_zero hz] at hpos
    exact absurd hpos (lt_irrefl 0)

theorem plateMaxEdge_zero {img : Image} (hz : ∀ x y : ℤ, grayAt img x y = 0) :
    plateMaxEdge img = 0 :=
  maxOf2D_eq_zero img _ (absGradX_zero hz)

theorem plateNormAt_of_max_zero {img : Image} (hmax : plateMaxEdge img = 0) (i : ℤ) :
    plateNormAt img i = 0 := by
  simp [plateNormAt, hmax]

theorem plateCandidates_nil {img : Image} (hz : ∀ x y : ℤ, grayAt img x y = 0)
    (hint : Option VehicleRegion) : plateCandidates img hint = [] := by
  unfold plateCandidates
  apply List.flatMap_eq_nil_iff.2
  intro s _
  unfold plateCandidatesFor
  apply List.flatMap_eq_nil_iff.2
  intro y _
  apply List.filterMap_eq_nil_iff.2
  intro x _
  have hvals : (plateWindowVals img s x y).sum = 0 := by
    apply List.sum_eq_zero
    intro v hv
    unfold plateWindowVals at hv
    obtain ⟨dy, _, hv2⟩ := List.mem_flatMap.1 hv
    obtain ⟨dx, _, rfl⟩ := List.mem_map.1 hv2
    exact plateNormAt_of_max_zero (plateMaxEdge_zero hz) _
  simp only
  rw [if_neg]
  intro hcond
  rw [hvals] at hcond
  have := hcond.1
  rw [zero_div] at this
  norm_num at this

theorem detectLicensePlateRegion_zero {img : Image} (hz : ∀ x y : ℤ, grayAt img x y = 0)
    (hint : Option VehicleRegion) : detectLicensePlateRegion img hint = none := by
  unfold detectLicensePlateRegion
  rw [plateCandidates_nil hz hint]
  rfl

theorem detectLogoRegion_zero {img : Image} (hz : ∀ x y : ℤ, grayAt img x y = 0)
    (hint : Option VehicleRegion) : detectLogoRegion img hint = none := by
  have hB : ∀ (hs x y : ℚ), (logoSamples img hs x y).length ≠ 0 →
      ((logoSamples img hs x y).sum / ((logoSamples img hs x y).length : ℚ)) = 0 := by
    intro hs x y _
    have hsum : (logoSamples img hs x y).sum = 0 := by
      apply List.sum_eq_zero
      intro v hv
      unfold logoSamples at hv
      obtain ⟨d, _, hd⟩ := List.mem_filterMap.1 hv
      simp only at hd
      by_cases hc : 0 ≤ Int.floor (x + d.1) ∧ 0 ≤ Int.floor (y + d.2) ∧
          Int.floor (x + d.1) < (img.width : ℤ) ∧ Int.floor (y + d.2) < (img.height : ℤ)
      · rw [if_pos hc] at hd
        cases hd
        have hmax : maxLapAbs img = 0 := maxOf2D_eq_zero img _ (lapAbsAt_zero hz)
        simp [logoNormAt, hmax]
      · rw [if_neg hc] at hd
        cases hd
    rw [hsum, zero_div]
  rcases logoScan_score_bound img hint (fun s => s = 0) hB with h | ⟨c, h, hc⟩
  · unfold detectLogoRegion
    rw [h]
  · unfold detectLogoRegion
    rw [h]
    show (if 1 / 10 < c.score then
      some (⟨c.bbox, min (c.score * 3) (17 / 20)⟩ : LogoRegion) else none) = none
    rw [hc]
    norm_num

set_option maxRecDepth 200000 in
/-- C3 counterexample: the claim asserts that a perfectly uniform grayscale
image makes every gradient zero and all three detectors return null.  On the
uniform bright image `img1s` the zero padding of `conv2d(..., 'same')`
produces nonzero border gradients, and `detectVehicleRegion` emits a region. -/
theorem c3_counterexample :
    (∀ x y : ℕ, x < 8 → y < 8 → grayAt img1s (x : ℤ) (y : ℤ) = 1) ∧
    detectVehicleRegion img1s ≠ none := by
  constructor
  · intro x y hx hy
    unfold grayAt img1s constImage
    rw [if_pos ⟨Int.natCast_nonneg x, by exact_mod_cast hx, Int.natCast_nonneg y,
      by exact_mod_cast hy⟩]
    norm_num
  · with_unfolding_all decide

/-- C3 amended: for every image whose grayscale reduction (with the zero
padding of the convolutions) is zero everywhere — the uniformly zero image —
every gradient and Laplacian response is zero, the field maxima are zero, and
`detectVehicleRegion`, `detectLicensePlateRegion` and `detectLogoRegion` all
return null for every hint; the zero maximum never causes a division-by-zero
failure or a spurious detection.  (For uniform images of nonzero brightness
the border gradients are nonzero and a detector may fire; see the
counterexample.) -/
theorem c3_uniform_zero_all_absent (img : Image)
    (hz : ∀ x y : ℤ, grayAt img x y = 0) :
    detectVehicleRegion img = none ∧
    (∀ hint, detectLicensePlateRegion img hint = none) ∧
    (∀ hint, detectLogoRegion img hint = none) :=
  ⟨detectVehicleRegion_zero hz, fun hint => detectLicensePlateRegion_zero hz hint,
    fun hint => detectLogoRegion_zero hz hint⟩

/-- C3 witness: on the 4×4 uniformly zero image all three detectors return
null. -/
theorem c3_witness :
    detectVehicleRegion imgZ = none ∧ detectLicensePlateRegion imgZ none = none ∧
    detectLogoRegion imgZ none = none := by
  have hz : ∀ x y : ℤ, grayAt imgZ x y = 0 := by
    intro x y
    unfold grayAt imgZ constImage
    split <;> norm_num
  obtain ⟨h1, h2, h3⟩ := c3_uniform_zero_all_absent imgZ hz
  exact ⟨h1, h2 none, h3 none⟩

theorem getD_range_map {α : Type} (f : ℕ → α) (n i : ℕ) (d : α) (h : i < n) :
    ((List.range n).map f).getD i d = f i := by
  induction n generalizing i with
  | zero => omega
  | succ m ih =>
      rw [List.range_succ]
      by_cases hi : i < m
      · rw [List.map_append, List.getD_append _ _ _ _ (by simpa using hi)]
        exact ih i hi
      · have : i = m := by omega
        subst this
        rw [List.map_append, List.getD_append_right _ _ _ _ (by simp)]
        simp

theorem edgeAtFlat_inBounds (img : Image) (x y : ℕ) (hx : x < img.width)
    (hy : y < img.height) :
    edgeAtFlat img ((y : ℤ) * (img.width : ℤ) + (x : ℤ)) = absGradX img (x : ℤ) (y : ℤ) := by
  have hW : 0 < img.width := Nat.pos_of_ne_zero (by omega)
  have hnn : (0 : ℤ) ≤ (y : ℤ) * (img.width : ℤ) + (x : ℤ) := by positivity
  have htn : ((y : ℤ) * (img.width : ℤ) + (x : ℤ)).toNat = y * img.width + x := by
    omega
  have hlt : y * img.width + x < img.width * img.height := by
    calc y * img.width + x < (y + 1) * img.width := by
          rw [Nat.add_mul, Nat.one_mul]; omega
      _ ≤ img.height * img.width := Nat.mul_le_mul_right _ (by omega)
      _ = img.width * img.height := Nat.mul_comm _ _
  unfold edgeAtFlat plateEdgeData
  rw [if_pos hnn, htn, getD_range_map _ _ _ _ hlt]
  have hmod : (y * img.width + x) % img.width = x := by
    rw [Nat.add_comm, Nat.add_mul_mod_self_right]
    exact Nat.mod_eq_of_lt hx
  have hdiv : (y * img.width + x) / img.width = y := by
    rw [Nat.add_comm, Nat.add_mul_div_right _ _ hW, Nat.div_eq_of_lt hx]
    omega
  rw [hmod, hdiv]

/-- C4 counterexample: the claim says the per-pixel values the plate detector
scores come from the spec's normalised two-kernel gradient magnitude
`sqrt(gx² + gy²) / max`; stated sqrt-free, the value `v` at pixel `(x, y)`
would satisfy `v² * maxMagSq = magSq x y`.  At pixel `(0, 1)` of `img2` the
detector's value is `0` (the horizontal Sobel response vanishes there) while
`magSq = 4` with `maxMagSq = 4`, so the equation fails. -/
theorem c4_counterexample :
    plateNormAt img2 ((1 : ℤ) * (img2.width : ℤ) + (0 : ℤ)) ^ 2 * maxMagSq img2 ≠
      magSq img2 0 1 := by
  with_unfolding_all decide

/-- C4 amended: the per-pixel edge value the plate detector scores at an
in-bounds pixel is the absolute horizontal-Sobel response normalised by that
field's maximum — `|gx| / max|gx|`, from the horizontal kernel only — stated
division-free as `value * plateMaxEdge = absGradX`. -/
theorem c4_plate_field_horizontal_only (img : Image) (x y : ℕ)
    (hx : x < img.width) (hy : y < img.height) :
    plateNormAt img ((y : ℤ) * (img.width : ℤ) + (x : ℤ)) * plateMaxEdge img =
      absGradX img (x : ℤ) (y : ℤ) := by
  unfold plateNormAt
  rw [edgeAtFlat_inBounds img x y hx hy]
  by_cases hmax : plateMaxEdge img = 0
  · rw [hmax]
    have hle : absGradX img (x : ℤ) (y : ℤ) ≤ 0 := by
      have := le_maxOf2D img (fun a b => absGradX img a b) x y hx hy
      unfold plateMaxEdge at hmax
      rw [hmax] at this
      exact this
    have hge : 0 ≤ absGradX img (x : ℤ) (y : ℤ) := abs_nonneg _
    rw [le_antisymm hle hge]
    simp
  · exact div_mul_cancel₀ _ hmax

/-- C4 witness: the amended relation at pixel `(1, 0)` of `img2`. -/
theorem c4_witness :
    plateNormAt img2 (((0 : ℕ) : ℤ) * (img2.width : ℤ) + ((1 : ℕ) : ℤ)) *
      plateMaxEdge img2 = absGradX img2 ((1 : ℕ) : ℤ) ((0 : ℕ) : ℤ) :=
  c4_plate_field_horizontal_only img2 1 0 (by decide) (by decide)

theorem detectVehicleRegion_elim {img : Image} {r : VehicleRegion}
    (h : detectVehicleRegion img = some r) :
    ∃ l1 p l2, vehiclePositions = l1 ++ p :: l2 ∧
      r.bbox = vehicleWindowBox img p ∧
      1 / 20 < windowDensity img p.1 p.2 ∧
      r.confidence = min (windowDensity img p.1 p.2 * 5) (19 / 20) ∧
      (∀ q ∈ vehiclePositions, windowDensity img q.1 q.2 ≤ windowDensity img p.1 p.2) ∧
      (∀ q ∈ l1, windowDensity img q.1 q.2 < windowDensity img p.1 p.2) := by
  have hspec := bestScan_spec (fun p => windowDensity img p.1 p.2) (vehicleWindowBox img)
    vehiclePositions
  simp only [detectVehicleRegion] at h
  by_cases hc : (1 : ℚ) / 20 < (vehicleScan img).1
  · rw [if_pos hc] at h
    rcases hspec.2.2 with heq | ⟨l1, p, l2, hsplit, heq, _, hstrict⟩
    · exfalso
      have hzero : (vehicleScan img).1 = 0 := by unfold vehicleScan; rw [heq]
      rw [hzero] at hc
      norm_num at hc
    · have hsv : vehicleScan img =
          (windowDensity img p.1 p.2, vehicleWindowBox img p) := by
        unfold vehicleScan
        exact heq
      rw [Option.some.injEq] at h
      subst h
      refine ⟨l1, p, l2, hsplit, by rw [hsv], ?_, by rw [hsv], ?_, hstrict⟩
      · rw [hsv] at hc
        exact hc
      · intro q hq
        have h2 := hspec.2.1 q hq
        rw [heq] at h2
        exact h2
  · rw [if_neg hc] at h
    cases h

theorem vehiclePositions_mem {p : ℕ × ℕ} (h : p ∈ vehiclePositions) :
    p.1 ≤ 5 ∧ p.2 ≤ 5 := by
  unfold vehiclePositions gridSize at h
  obtain ⟨gy, hgy, h2⟩ := List.mem_flatMap.1 h
  obtain ⟨gx, hgx, rfl⟩ := List.mem_map.1 h2
  simp only [List.mem_range] at hgy hgx
  omega

theorem windowDensity_zero_cell {img : Image} (gx gy : ℕ)
    (h : cellW img = 0 ∨ cellH img = 0) : windowDensity img gx gy = 0 := by
  unfold windowDensity
  rcases h with h | h <;> rw [h] <;> simp

/-- C10: whenever `detectVehicleRegion` emits a region for a `W × H` image,
its bounding box has the fixed size `3⌊W/8⌋ × 3⌊H/8⌋`, both strictly
positive, its corner is `(gx·⌊W/8⌋, gy·⌊H/8⌋)` for grid indices
`gx, gy ≤ 5`, and the box lies entirely within the image; consequently the
detector always returns null when `W < 8` or `H < 8`. -/
theorem c10_vehicle_bbox_invariant :
    (∀ (img : Image) (r : VehicleRegion), detectVehicleRegion img = some r →
      r.bbox.width = ((3 * (img.width / 8) : ℕ) : ℚ) ∧
      r.bbox.height = ((3 * (img.height / 8) : ℕ) : ℚ) ∧
      0 < r.bbox.width ∧ 0 < r.bbox.height ∧
      (∃ gx : ℕ, gx ≤ 5 ∧ r.bbox.x = ((gx * (img.width / 8) : ℕ) : ℚ)) ∧
      (∃ gy : ℕ, gy ≤ 5 ∧ r.bbox.y = ((gy * (img.height / 8) : ℕ) : ℚ)) ∧
      0 ≤ r.bbox.x ∧ r.bbox.x + r.bbox.width ≤ (img.width : ℚ) ∧
      0 ≤ r.bbox.y ∧ r.bbox.y + r.bbox.height ≤ (img.height : ℚ)) ∧
    (∀ img : Image, img.width < 8 ∨ img.height < 8 → detectVehicleRegion img = none) := by
  constructor
  · intro img r h
    obtain ⟨l1, p, l2, hsplit, hbbox, hdens, _, _, _⟩ := detectVehicleRegion_elim h
    have hmem : p ∈ vehiclePositions := by
      rw [hsplit]
      exact List.mem_append.2 (Or.inr (List.mem_cons_self _ _))
    obtain ⟨hgx, hgy⟩ := vehiclePositions_mem hmem
    have hcellW : 0 < cellW img := by
      by_contra hcw
      rw [windowDensity_zero_cell p.1 p.2 (Or.inl (by omega))] at hdens
      norm_num at hdens
    have hcellH : 0 < cellH img := by
      by_contra hch
      rw [windowDensity_zero_cell p.1 p.2 (Or.inr (by omega))] at hdens
      norm_num at hdens
    have hWb : (p.1 + 3) * cellW img ≤ img.width := by
      calc (p.1 + 3) * cellW img ≤ 8 * cellW img := Nat.mul_le_mul_right _ (by omega)
        _ = cellW img * 8 := Nat.mul_comm _ _
        _ ≤ img.width := Nat.div_mul_le_self _ _
    have hHb : (p.2 + 3) * cellH img ≤ img.height := by
      calc (p.2 + 3) * cellH img ≤ 8 * cellH img := Nat.mul_le_mul_right _ (by omega)
        _ = cellH img * 8 := Nat.mul_comm _ _
        _ ≤ img.height := Nat.div_mul_le_self _ _
    rw [hbbox]
    refine ⟨rfl, rfl, ?_, ?_, ⟨p.1, hgx, rfl⟩, ⟨p.2, hgy, rfl⟩, ?_, ?_, ?_, ?_⟩
    · show (0 : ℚ) < ((3 * cellW img : ℕ) : ℚ)
      exact_mod_cast (by omega : 0 < 3 * cellW img)
    · show (0 : ℚ) < ((3 * cellH img : ℕ) : ℚ)
      exact_mod_cast (by omega : 0 < 3 * cellH img)
    · show (0 : ℚ) ≤ ((p.1 * cellW img : ℕ) : ℚ)
      positivity
    · show ((p.1 * cellW img : ℕ) : ℚ) + ((3 * cellW img : ℕ) : ℚ) ≤ (img.width : ℚ)
      rw [Nat.add_mul] at hWb
      exact_mod_cast hWb
    · show (0 : ℚ) ≤ ((p.2 * cellH img : ℕ) : ℚ)
      positivity
    · show ((p.2 * cellH img : ℕ) : ℚ) + ((3 * cellH img : ℕ) : ℚ) ≤ (img.height : ℚ)
      rw [Nat.add_mul] at hHb
      exact_mod_cast hHb
  · intro img hsmall
    have hcell : cellW img = 0 ∨ cellH img = 0 := by
      rcases hsmall with h | h
      · exact Or.inl (Nat.div_eq_of_lt h)
      · exact Or.inr (Nat.div_eq_of_lt h)
    have hspec := bestScan_spec (fun p => windowDensity img p.1 p.2) (vehicleWindowBox img)
      vehiclePositions
    simp only [detectVehicleRegion]
    rcases hspec.2.2 with heq | ⟨l1, p, l2, _, _, hpos, _⟩
    · have hzero : (vehicleScan img).1 = 0 := by unfold vehicleScan; rw [heq]
      rw [if_neg (by rw [hzero]; norm_num)]
    · rw [windowDensity_zero_cell p.1 p.2 hcell] at hpos
      exact absurd hpos (lt_irrefl 0)

set_option maxRecDepth 200000 in
/-- C10 witness: on the uniform bright 8×8 image the emitted box corner is a
grid multiple, and a 4×4 image always yields null. -/
theorem c10_witness :
    (∃ gx : ℕ, gx ≤ 5 ∧
      (⟨VehicleType.front, ⟨0, 0, 3, 3⟩, 19 / 20⟩ : VehicleRegion).bbox.x =
        ((gx * (img1s.width / 8) : ℕ) : ℚ)) ∧
    detectVehicleRegion imgZ = none := by
  constructor
  · exact (c10_vehicle_bbox_invariant.1 img1s _
      (by with_unfolding_all decide)).2.2.2.2.1
  · exact c10_vehicle_bbox_invariant.2 imgZ (Or.inl (by decide))

set_option maxRecDepth 200000 in
/-- C5 counterexample: the claim says the vehicle detector evaluates windows
exactly at grid positions `gx, gy ∈ [0, gridSize - 3)`, i.e. `{0,...,4}`,
and returns the densest window over exactly that set.  The source loops run
`gx, gy < gridSize - 2`, i.e. over `{0,...,5}`: on `imgDot` the detector
returns the window at grid position `(5, 5)` (corner `(5, 5)`), which the
claimed position set cannot produce — the claimed scan returns corner
`(4, 4)` instead. -/
theorem c5_counterexample :
    detectVehicleRegion imgDot ≠ claimedDetectVehicleRegion imgDot ∧
    (detectVehicleRegion imgDot).map (fun r => r.bbox) = some ⟨5, 5, 3, 3⟩ ∧
    (claimedDetectVehicleRegion imgDot).map (fun r => r.bbox) = some ⟨4, 4, 3, 3⟩ := by
  with_unfolding_all decide

/-- C5 amended: the detector evaluates 3×3-cell windows exactly at the
row-major grid positions (`gy` outer, `gx` inner) with
`gx, gy ∈ [0, gridSize - 2)`, i.e. `{0,...,5}`; whenever a region is
returned, its window sits at one of exactly these positions, its density is
maximal over all of them, and every strictly earlier position in row-major
order has strictly smaller density (the first window wins ties). -/
theorem c5_grid_argmax (img : Image) (r : VehicleRegion)
    (h : detectVehicleRegion img = some r) :
    ∃ l1 p l2, vehiclePositions = l1 ++ p :: l2 ∧
      r.bbox = vehicleWindowBox img p ∧
      (∀ q ∈ vehiclePositions, windowDensity img q.1 q.2 ≤ windowDensity img p.1 p.2) ∧
      (∀ q ∈ l1, windowDensity img q.1 q.2 < windowDensity img p.1 p.2) := by
  obtain ⟨l1, p, l2, hsplit, hbbox, _, _, hmax, hstrict⟩ := detectVehicleRegion_elim h
  exact ⟨l1, p, l2, hsplit, hbbox, hmax, hstrict⟩

set_option maxRecDepth 200000 in
/-- C5 witness: the amended argmax characterisation instantiated on
`imgDot`, whose returned window is the one at grid position `(5, 5)`. -/
theorem c5_witness :
    ∃ l1 p l2, vehiclePositions = l1 ++ p :: l2 ∧
      (⟨VehicleType.rear, ⟨5, 5, 3, 3⟩, 19 / 20⟩ : VehicleRegion).bbox =
        vehicleWindowBox imgDot p ∧
      (∀ q ∈ vehiclePositions,
        windowDensity imgDot q.1 q.2 ≤ windowDensity imgDot p.1 p.2) ∧
      (∀ q ∈ l1, windowDensity imgDot q.1 q.2 < windowDensity imgDot p.1 p.2) :=
  c5_grid_argmax imgDot _ (by with_unfolding_all decide)

set_option maxRecDepth 200000 in
/-- C6 counterexample: the claim places every accepted plate candidate's box
vertically within `[vy + 0.3·vh, vy + vh]`.  With the hint `hintV` (height 5,
so the derived lower bound is `1.5`), the scan on `imgDotP` accepts a
candidate whose floored box has `y = 1 < 1.5`. -/
theorem c6_counterexample :
    ∃ c ∈ plateCandidates imgDotP (some hintV),
      c.bbox.y < hintV.bbox.y + hintV.bbox.height * (3 / 10) := by
  with_unfolding_all decide

/-- C6 amended: with a vehicle hint, every accepted plate candidate (and the
returned region) has its box within the derived search bounds up to the
`Math.floor` applied to the window corner: horizontally within
`[⌊vx⌋, vx + vw]` and vertically within `[⌊vy + 0.3·vh⌋, vy + vh]`. -/
theorem c6_candidates_within_bounds (img : Image) (v : VehicleRegion) :
    (∀ c ∈ plateCandidates img (some v),
      ((Int.floor v.bbox.x : ℤ) : ℚ) ≤ c.bbox.x ∧
      c.bbox.x + c.bbox.width ≤ v.bbox.x + v.bbox.width ∧
      ((Int.floor (v.bbox.y + v.bbox.height * (3 / 10)) : ℤ) : ℚ) ≤ c.bbox.y ∧
      c.bbox.y + c.bbox.height ≤ v.bbox.y + v.bbox.height) ∧
    (∀ r : LicensePlateRegion, detectLicensePlateRegion img (some v) = some r →
      ((Int.floor v.bbox.x : ℤ) : ℚ) ≤ r.bbox.x ∧
      r.bbox.x + r.bbox.width ≤ v.bbox.x + v.bbox.width ∧
      ((Int.floor (v.bbox.y + v.bbox.height * (3 / 10)) : ℤ) : ℚ) ≤ r.bbox.y ∧
      r.bbox.y + r.bbox.height ≤ v.bbox.y + v.bbox.height) := by
  have part1 : ∀ c ∈ plateCandidates img (some v),
      ((Int.floor v.bbox.x : ℤ) : ℚ) ≤ c.bbox.x ∧
      c.bbox.x + c.bbox.width ≤ v.bbox.x + v.bbox.width ∧
      ((Int.floor (v.bbox.y + v.bbox.height * (3 / 10)) : ℤ) : ℚ) ≤ c.bbox.y ∧
      c.bbox.y + c.bbox.height ≤ v.bbox.y + v.bbox.height := by
    intro c hc
    obtain ⟨s, _, y, hy, x, hx, hbbox, _⟩ := plateCandidates_elim hc
    have hxb := loopPositions_mem hx
    have hyb := loopPositions_mem hy
    have hsb : plateSearchBounds img (some v) =
        ⟨v.bbox.x, v.bbox.y + v.bbox.height * (3 / 10), v.bbox.x + v.bbox.width,
          v.bbox.y + v.bbox.height⟩ := rfl
    rw [hsb] at hxb hyb
    simp only at hxb hyb
    rw [hbbox]
    refine ⟨?_, ?_, ?_, ?_⟩
    · show ((Int.floor v.bbox.x : ℤ) : ℚ) ≤ ((Int.floor x : ℤ) : ℚ)
      exact_mod_cast Int.floor_le_floor hxb.1
    · have h1 : ((Int.floor x : ℤ) : ℚ) ≤ x := Int.floor_le x
      have h2 : ((Int.floor s.1 : ℤ) : ℚ) ≤ s.1 := Int.floor_le s.1
      have h3 : x < v.bbox.x + v.bbox.width - s.1 := hxb.2
      show ((Int.floor x : ℤ) : ℚ) + ((Int.floor s.1 : ℤ) : ℚ) ≤ v.bbox.x + v.bbox.width
      linarith
    · show ((Int.floor (v.bbox.y + v.bbox.height * (3 / 10)) : ℤ) : ℚ) ≤
        ((Int.floor y : ℤ) : ℚ)
      exact_mod_cast Int.floor_le_floor hyb.1
    · have h1 : ((Int.floor y : ℤ) : ℚ) ≤ y := Int.floor_le y
      have h2 : ((Int.floor s.2 : ℤ) : ℚ) ≤ s.2 := Int.floor_le s.2
      have h3 : y < v.bbox.y + v.bbox.height - s.2 := hyb.2
      show ((Int.floor y : ℤ) : ℚ) + ((Int.floor s.2 : ℤ) : ℚ) ≤ v.bbox.y + v.bbox.height
      linarith
  refine ⟨part1, ?_⟩
  intro r hr
  obtain ⟨c, hc, rfl⟩ := detectLicensePlateRegion_elim hr
  exact part1 c hc

set_option maxRecDepth 200000 in
/-- C6 witness: the amended bounds instantiated at the first accepted
candidate of the `imgDotP`/`hintV` scan. -/
theorem c6_witness :
    ((Int.floor hintV.bbox.x : ℤ) : ℚ) ≤ (⟨⟨0, 1, 2, 0⟩, 35 / 52⟩ : PlateCandidate).bbox.x ∧
    (⟨⟨0, 1, 2, 0⟩, 35 / 52⟩ : PlateCandidate).bbox.x +
        (⟨⟨0, 1, 2, 0⟩, 35 / 52⟩ : PlateCandidate).bbox.width ≤
      hintV.bbox.x + hintV.bbox.width ∧
    ((Int.floor (hintV.bbox.y + hintV.bbox.height * (3 / 10)) : ℤ) : ℚ) ≤
      (⟨⟨0, 1, 2, 0⟩, 35 / 52⟩ : PlateCandidate).bbox.y ∧
    (⟨⟨0, 1, 2, 0⟩, 35 / 52⟩ : PlateCandidate).bbox.y +
        (⟨⟨0, 1, 2, 0⟩, 35 / 52⟩ : PlateCandidate).bbox.height ≤
      hintV.bbox.y + hintV.bbox.height :=
  (c6_candidates_within_bounds imgDotP hintV).1 ⟨⟨0, 1, 2, 0⟩, 35 / 52⟩
    (by with_unfolding_all decide)

theorem sampledVals_denom (img : Image) (hint : Option VehicleRegion)
    (hv : hintValidForColor img hint) :
    colorPixelCountDenom img hint = ((sampledVals img hint).length : ℚ) ∧
    0 < (sampledVals img hint).length := by
  cases hint with
  | none =>
      obtain ⟨h1, h2⟩ := hv
      simp only [colorPixelCountDenom, sampledVals, colorCrop]
      rw [cropVals_length]
      refine ⟨?_, Nat.mul_pos h2 h1⟩
      push_cast
      ring
  | some v =>
      obtain ⟨nx, ny, nw, nh, hbbox, hnw, hnh, hxw, hyh⟩ := hv
      simp only [colorPixelCountDenom, sampledVals, colorCrop]
      rw [hbbox]
      simp only [Int.floor_natCast]
      have hx0 : (max 0 (nx : ℤ)).toNat = nx := by omega
      have hy0 : (max 0 (ny : ℤ)).toNat = ny := by omega
      have hcw : (min (nw : ℤ) ((img.width : ℤ) - (nx : ℤ))).toNat = nw := by omega
      have hch : (min (nh : ℤ) ((img.height : ℤ) - (ny : ℤ))).toNat = nh := by omega
      rw [hx0, hy0, hcw, hch, cropVals_length]
      have hminw : min ((nw : ℕ) : ℚ) ((img.width : ℚ) - ((nx : ℕ) : ℚ)) = ((nw : ℕ) : ℚ) := by
        apply min_eq_left
        have : ((nx : ℕ) : ℚ) + ((nw : ℕ) : ℚ) ≤ ((img.width : ℕ) : ℚ) := by
          exact_mod_cast hxw
        linarith
      have hminh : min ((nh : ℕ) : ℚ) ((img.height : ℚ) - ((ny : ℕ) : ℚ)) = ((nh : ℕ) : ℚ) := by
        apply min_eq_left
        have : ((ny : ℕ) : ℚ) + ((nh : ℕ) : ℚ) ≤ ((img.height : ℕ) : ℚ) := by
          exact_mod_cast hyh
        linarith
      rw [hminw, hminh]
      refine ⟨?_, Nat.mul_pos hnh hnw⟩
      push_cast
      ring

theorem histFold_uniform (c : ℚ × ℚ × ℚ) (rv gv bv : ℤ)
    (hr : round (c.1 * 255) = rv) (hg : round (c.2.1 * 255) = gv)
    (hb : round (c.2.2 * 255) = bv) :
    ∀ (l : List (ℚ × ℚ × ℚ)) (e : HistEntry), (∀ p ∈ l, p = c) →
      l.foldl (fun h v =>
        histInsert (quantKey (round (v.1 * 255)) (round (v.2.1 * 255)) (round (v.2.2 * 255)))
          (round (v.1 * 255)) (round (v.2.1 * 255)) (round (v.2.2 * 255)) h)
        [(quantKey rv gv bv, e)] =
      [(quantKey rv gv bv,
        ⟨e.count + l.length, e.r + rv * l.length, e.g + gv * l.length,
          e.b + bv * l.length⟩)] := by
  intro l
  induction l with
  | nil =>
      intro e _
      simp
  | cons p t ih =>
      intro e hl
      have hp : p = c := hl p (List.mem_cons_self _ _)
      rw [List.foldl_cons, hp, hr, hg, hb]
      have hstep : histInsert (quantKey rv gv bv) rv gv bv [(quantKey rv gv bv, e)] =
          [(quantKey rv gv bv, ⟨e.count + 1, e.r + rv, e.g + gv, e.b + bv⟩)] := by
        unfold histInsert
        rw [if_pos rfl]
      rw [hstep, ih _ (fun q hq => hl q (List.mem_cons_of_mem _ hq))]
      simp only [List.cons.injEq, Prod.mk.injEq, HistEntry.mk.injEq, List.length_cons,
        and_true, true_and]
      refine ⟨by omega, by push_cast; ring, by push_cast; ring, by push_cast; ring⟩

theorem buildHistogram_uniform (c : ℚ × ℚ × ℚ) (rv gv bv : ℤ)
    (hr : round (c.1 * 255) = rv) (hg : round (c.2.1 * 255) = gv)
    (hb : round (c.2.2 * 255) = bv) (l : List (ℚ × ℚ × ℚ))
    (hl : ∀ p ∈ l, p = c) (hne : l ≠ []) :
    buildHistogram l = [(quantKey rv gv bv,
      ⟨l.length, rv * l.length, gv * l.length, bv * l.length⟩)] := by
  cases l with
  | nil => exact absurd rfl hne
  | cons p t =>
      unfold buildHistogram
      have hp : p = c := hl p (List.mem_cons_self _ _)
      rw [List.foldl_cons, hp, hr, hg, hb]
      have hstep : histInsert (quantKey rv gv bv) rv gv bv [] =
          [(quantKey rv gv bv, ⟨1, rv, gv, bv⟩)] := rfl
      rw [hstep, histFold_uniform c rv gv bv hr hg hb t ⟨1, rv, gv, bv⟩
        (fun q hq => hl q (List.mem_cons_of_mem _ hq))]
      simp only [List.cons.injEq, Prod.mk.injEq, HistEntry.mk.injEq, List.length_cons,
        and_true, true_and]
      refine ⟨by omega, by push_cast; ring, by push_cast; ring, by push_cast; ring⟩

theorem pickDominant_singleton (k : ℤ × ℤ × ℤ) (e : HistEntry) (he : 0 < e.count) :
    pickDominant [(k, e)] =
      ⟨round ((e.r : ℚ) / (e.count : ℚ)), round ((e.g : ℚ) / (e.count : ℚ)),
        round ((e.b : ℚ) / (e.count : ℚ)), e.count⟩ := by
  unfold pickDominant
  rw [List.foldl_cons, List.foldl_nil]
  rw [if_pos he]

/-- C7: classifying any sampled region (a valid central crop or a valid
vehicle-hint crop) consisting solely of pixels of RGB `(26, 26, 46)` yields
the Black bucket `"Đen"`, dominant hex `"#1a1a2e"`, rgb `(26, 26, 46)`, and
confidence exactly `1` (the single histogram bucket holds all sampled
pixels). -/
theorem c7_black_roundtrip (img : Image) (hint : Option VehicleRegion)
    (hv : hintValidForColor img hint)
    (hu : ∀ p ∈ sampledVals img hint,
      p = ((26 : ℚ) / 255, (26 : ℚ) / 255, (46 : ℚ) / 255)) :
    detectVehicleColor img hint = some ⟨"#1a1a2e", "Đen", 1, ⟨26, 26, 46⟩⟩ := by
  obtain ⟨hdenom, hpos⟩ := sampledVals_denom img hint hv
  have hne : sampledVals img hint ≠ [] := by
    intro h
    rw [h] at hpos
    simp at hpos
  have hr : round (((26 : ℚ) / 255) * 255) = (26 : ℤ) := by
    with_unfolding_all decide
  have hb : round (((46 : ℚ) / 255) * 255) = (46 : ℤ) := by
    with_unfolding_all decide
  have hhist := buildHistogram_uniform ((26 : ℚ) / 255, (26 : ℚ) / 255, (46 : ℚ) / 255)
    26 26 46 hr hr hb (sampledVals img hint) hu hne
  set n := (sampledVals img hint).length with hn
  have hnpos : (0 : ℚ) < (n : ℚ) := by exact_mod_cast hpos
  have hnne : (n : ℚ) ≠ 0 := ne_of_gt hnpos
  have hdom : pickDominant (buildHistogram (sampledVals img hint)) = ⟨26, 26, 46, n⟩ := by
    rw [hhist, pickDominant_singleton _ _ (by simpa using hpos)]
    have h26 : round (((26 * (n : ℤ) : ℤ) : ℚ) / ((n : ℕ) : ℚ)) = (26 : ℤ) := by
      have : ((26 * (n : ℤ) : ℤ) : ℚ) / ((n : ℕ) : ℚ) = 26 := by
        push_cast
        field_simp
      rw [this]
      have h2 : ((26 : ℤ) : ℚ) = (26 : ℚ) := by norm_num
      rw [← h2, round_intCast]
    have h46 : round (((46 * (n : ℤ) : ℤ) : ℚ) / ((n : ℕ) : ℚ)) = (46 : ℤ) := by
      have : ((46 * (n : ℤ) : ℤ) : ℚ) / ((n : ℕ) : ℚ) = 46 := by
        push_cast
        field_simp
      rw [this]
      have h2 : ((46 : ℤ) : ℚ) = (46 : ℚ) := by norm_num
      rw [← h2, round_intCast]
    simp only [DominantAcc.mk.injEq, and_true]
    refine ⟨?_, ?_, ?_⟩
    · exact_mod_cast h26
    · exact_mod_cast h26
    · exact_mod_cast h46
  have hhex : rgbToHex 26 26 46 = "#1a1a2e" := by with_unfolding_all decide
  have hhsl : rgbToHsl 26 26 46 = (240, 250 / 9, 240 / 17) := by with_unfolding_all decide
  have hname : getColorName 240 (250 / 9) (240 / 17) = "Đen" := by with_unfolding_all decide
  simp only [detectVehicleColor, hdom, hhsl, hhex, hname]
  rw [hdenom, div_self hnne]

/-- C7 witness: the round-trip on the uniform 4×4 image of RGB (26, 26, 46)
with the central-crop sampling. -/
theorem c7_witness :
    detectVehicleColor imgBlack none = some ⟨"#1a1a2e", "Đen", 1, ⟨26, 26, 46⟩⟩ :=
  c7_black_roundtrip imgBlack none ⟨by decide, by decide⟩ (by with_unfolding_all decide)

theorem windowDensity_nonneg (img : Image) (gx gy : ℕ) : 0 ≤ windowDensity img gx gy := by
  unfold windowDensity
  exact div_nonneg (Nat.cast_nonneg _) (Nat.cast_nonneg _)

theorem plateNormAt_nonneg (img : Image) (i : ℤ) : 0 ≤ plateNormAt img i := by
  unfold plateNormAt
  apply div_nonneg _ (maxOf2D_nonneg img _)
  unfold edgeAtFlat
  by_cases hi : (0 : ℤ) ≤ i
  · rw [if_pos hi]
    rcases getD_zero_or_mem (plateEdgeData img) i.toNat 0 with h | h
    · rw [h]
    · unfold plateEdgeData at h ⊢
      obtain ⟨j, _, hj⟩ := List.mem_map.1 h
      rw [← hj]
      exact abs_nonneg _
  · rw [if_neg hi]

theorem plateSizes_nonneg {img : Image} {s : ℚ × ℚ} (h : s ∈ plateSizes img) :
    0 ≤ s.1 ∧ 0 ≤ s.2 := by
  unfold plateSizes at h
  rcases List.mem_cons.1 h with rfl | h2
  · constructor <;> positivity
  · rcases List.mem_cons.1 h2 with rfl | h3
    · constructor <;> positivity
    · simp at h3

theorem plateScore_nonneg {img : Image} {hint : Option VehicleRegion} {c : PlateCandidate}
    (hc : c ∈ plateCandidates img hint) : 0 ≤ c.score := by
  obtain ⟨s, hs, y, _, x, _, _, hscore⟩ := plateCandidates_elim hc
  obtain ⟨hs1, hs2⟩ := plateSizes_nonneg hs
  have hsum : 0 ≤ (plateWindowVals img s x y).sum := by
    apply List.sum_nonneg
    intro v hv
    unfold plateWindowVals at hv
    obtain ⟨dy, _, hv2⟩ := List.mem_flatMap.1 hv
    obtain ⟨dx, _, rfl⟩ := List.mem_map.1 hv2
    exact plateNormAt_nonneg _ _
  have harea : (0 : ℚ) ≤ s.1 * s.2 := mul_nonneg hs1 hs2
  rw [hscore]
  have h1 : (0 : ℚ) ≤ (plateWindowVals img s x y).sum / (s.1 * s.2) :=
    div_nonneg hsum harea
  have h2 : (0 : ℚ) ≤
      (((plateWindowVals img s x y).countP (fun v => decide ((3 : ℚ) / 10 < v))) : ℚ) /
        (s.1 * s.2) :=
    div_nonneg (Nat.cast_nonneg _) harea
  positivity

theorem logoNormAt_nonneg (img : Image) (x y : ℤ) : 0 ≤ logoNormAt img x y := by
  unfold logoNormAt
  apply div_nonneg _ (maxOf2D_nonneg img _)
  rcases getD_zero_or_mem (responseData img) (y * (img.width : ℤ) + x).toNat 0 with h | h
  · rw [h]
  · unfold responseData at h ⊢
    obtain ⟨j, _, hj⟩ := List.mem_map.1 h
    rw [← hj]
    exact abs_nonneg _

/-- C9: every confidence value emitted by the four detectors lies in
`[0, 1]`: the vehicle detector's `min(maxDensity·5, 0.95)`, the plate
detector's `min(score·2, 0.9)`, the logo detector's `min(score·3, 0.85)`,
and the colour classifier's dominant-bucket count divided by the sampled
pixel count (for valid sampling regions, where the divisor equals the number
of sampled pixels). -/
theorem c9_confidence_bounds :
    (∀ (img : Image) (r : VehicleRegion), detectVehicleRegion img = some r →
      0 ≤ r.confidence ∧ r.confidence ≤ 1) ∧
    (∀ (img : Image) (hint : Option VehicleRegion) (r : LicensePlateRegion),
      detectLicensePlateRegion img hint = some r → 0 ≤ r.confidence ∧ r.confidence ≤ 1) ∧
    (∀ (img : Image) (hint : Option VehicleRegion) (r : LogoRegion),
      detectLogoRegion img hint = some r → 0 ≤ r.confidence ∧ r.confidence ≤ 1) ∧
    (∀ (img : Image) (hint : Option VehicleRegion) (r : ColorInfo),
      hintValidForColor img hint → detectVehicleColor img hint = some r →
      0 ≤ r.confidence ∧ r.confidence ≤ 1) := by
  refine ⟨?_, ?_, ?_, ?_⟩
  · intro img r h
    obtain ⟨_, p, _, _, _, _, hconf, _, _⟩ := detectVehicleRegion_elim h
    rw [hconf]
    constructor
    · exact le_min (by positivity) (by norm_num)
    · exact le_trans (min_le_right _ _) (by norm_num)
  · intro img hint r h
    obtain ⟨c, hc, rfl⟩ := detectLicensePlateRegion_elim h
    have hs := plateScore_nonneg hc
    constructor
    · exact le_min (by positivity) (by norm_num)
    · exact le_trans (min_le_right _ _) (by norm_num)
  · intro img hint r h
    have hB : ∀ (hs x y : ℚ), (logoSamples img hs x y).length ≠ 0 →
        0 ≤ ((logoSamples img hs x y).sum / ((logoSamples img hs x y).length : ℚ)) := by
      intro hs x y _
      apply div_nonneg _ (Nat.cast_nonneg _)
      apply List.sum_nonneg
      intro v hv
      unfold logoSamples at hv
      obtain ⟨d, _, hd⟩ := List.mem_filterMap.1 hv
      simp only at hd
      by_cases hcnd : 0 ≤ Int.floor (x + d.1) ∧ 0 ≤ Int.floor (y + d.2) ∧
          Int.floor (x + d.1) < (img.width : ℤ) ∧ Int.floor (y + d.2) < (img.height : ℤ)
      · rw [if_pos hcnd] at hd
        cases hd
        exact logoNormAt_nonneg _ _ _
      · rw [if_neg hcnd] at hd
        cases hd
    rcases logoScan_score_bound img hint (fun s => 0 ≤ s) hB with hls | ⟨c, hls, hcs⟩
    · have h0 : detectLogoRegion img hint = none := by
        unfold detectLogoRegion
        rw [hls]
      rw [h0] at h
      cases h
    · have h0 : detectLogoRegion img hint =
          (if (1 : ℚ) / 10 < c.score then
            some (⟨c.bbox, min (c.score * 3) (17 / 20)⟩ : LogoRegion) else none) := by
        unfold detectLogoRegion
        rw [hls]
      rw [h0] at h
      by_cases hth : (1 : ℚ) / 10 < c.score
      · rw [if_pos hth] at h
        rw [Option.some.injEq] at h
        subst h
        constructor
        · exact le_min (by positivity) (by norm_num)
        · exact le_trans (min_le_right _ _) (by norm_num)
      · rw [if_neg hth] at h
        cases h
  · intro img hint r hv h
    obtain ⟨hdenom, hpos⟩ := sampledVals_denom img hint hv
    simp only [detectVehicleColor, Option.some.injEq] at h
    subst h
    simp only
    rw [hdenom]
    have hcount : (pickDominant (buildHistogram (sampledVals img hint))).count ≤
        (sampledVals img hint).length := by
      have h1 := pickDominant_count_le (buildHistogram (sampledVals img hint))
      rw [buildHistogram_total] at h1
      exact h1
    have hnpos : (0 : ℚ) < ((sampledVals img hint).length : ℚ) := by exact_mod_cast hpos
    constructor
    · exact div_nonneg (Nat.cast_nonneg _) (le_of_lt hnpos)
    · rw [div_le_one hnpos]
      exact_mod_cast hcount

set_option maxRecDepth 200000 in
/-- C9 witness: the bounds instantiated at concrete emissions of all four
detectors (vehicle on `img1s`, plate on `imgDotP`, logo on `imgLogo2` with
hint `hintL`, colour on `imgBlack`). -/
theorem c9_witness :
    (0 ≤ (⟨VehicleType.front, ⟨0, 0, 3, 3⟩, 19 / 20⟩ : VehicleRegion).confidence ∧
      (⟨VehicleType.front, ⟨0, 0, 3, 3⟩, 19 / 20⟩ : VehicleRegion).confidence ≤ 1) ∧
    (0 ≤ (⟨⟨0, 3, 1, 0⟩, 9 / 10⟩ : LicensePlateRegion).confidence ∧
      (⟨⟨0, 3, 1, 0⟩, 9 / 10⟩ : LicensePlateRegion).confidence ≤ 1) ∧
    (0 ≤ (⟨⟨4, 1, 1, 1⟩, 17 / 20⟩ : LogoRegion).confidence ∧
      (⟨⟨4, 1, 1, 1⟩, 17 / 20⟩ : LogoRegion).confidence ≤ 1) ∧
    (0 ≤ (⟨"#1a1a2e", "Đen", 1, ⟨26, 26, 46⟩⟩ : ColorInfo).confidence ∧
      (⟨"#1a1a2e", "Đen", 1, ⟨26, 26, 46⟩⟩ : ColorInfo).confidence ≤ 1) :=
  ⟨c9_confidence_bounds.1 img1s _ (by with_unfolding_all decide),
    c9_confidence_bounds.2.1 imgDotP none _ (by with_unfolding_all decide),
    c9_confidence_bounds.2.2.1 imgLogo2 (some hintL) _ (by with_unfolding_all decide),
    c9_confidence_bounds.2.2.2 imgBlack none _ ⟨by decide, by decide⟩
      (by with_unfolding_all decide)⟩

end LPD
